import Mathlib

/-!
Verification of the amplify-docs-mcp corpus-synchronization and
search-orchestration layer (TypeScript/JavaScript sources under `src/`).

The relevant program fragments are shallowly embedded as executable Lean
functions:

* JavaScript string operations (`toLowerCase`, `includes`, `split(/\s+/)`,
  `trim`) are modelled on `List Char` for the ASCII character range the
  corpus and queries use.
* The ranking comparator of `executeDocsSearch` (src/index.ts), the cache
  key construction of `SearchCache._generateKey` (src/cache.js), the cache
  interaction flow of `executeDocsSearch`, the acquisition fallback chain of
  `setupGitRepo`/`setupWithTarball` (src/git.ts), the manifest loading of
  `DirectoryManager` (src/directory.ts) and the heading extraction of
  `extractHeadings` (src/index.ts) are embedded definition by definition.
* External effects (filesystem reads, the network, the external `probe`
  matcher) are supplied as explicit environment records of outcomes, so the
  orchestration logic itself stays a total, executable function.
-/

namespace AmplifyDocs

/-! ## ASCII string primitives modelling the JavaScript operations used -/

/-- ASCII lowercasing of one character, modelling JS `toLowerCase` on the
ASCII range (the only range appearing in corpus paths and queries): map
`A`–`Z` (codes 65–90) to `a`–`z` (codes 97–122), fix everything else. -/
def lowerChar (c : Char) : Char :=
  if 65 ≤ c.toNat ∧ c.toNat ≤ 90 then Char.ofNat (c.toNat + 32) else c

/-- Lowercase a character list. -/
def lowerL (l : List Char) : List Char := l.map lowerChar

/-- JS `s.toLowerCase()` for ASCII strings. -/
def lowerStr (s : String) : String := String.mk (lowerL s.data)

/-- `hay` contains `pat` as a contiguous sublist (JS `String.includes`). -/
def containsSub (hay pat : List Char) : Bool :=
  hay.tails.any (fun t => pat.isPrefixOf t)

/-- JS `hay.includes(pat)` on strings. -/
def strContains (hay pat : String) : Bool := containsSub hay.data pat.data

/-- Whitespace characters recognised by the model (the subset of JS `\s`
occurring in the corpus: space, tab, newline, carriage return). -/
def wsChar (c : Char) : Bool := c = ' ' || c = '\t' || c = '\n' || c = '\r'

/-- JS `\w` word characters. -/
def wordChar (c : Char) : Bool := c.isAlpha || c.isDigit || c = '_'

/-! ## `SearchCache._generateKey` (src/cache.js, lines 25-42)

The source builds `keyObj = {query, path, maxTokens, skipTokens,
semanticSearch, fuzzyMatch, includeCodeSnippets}` from its arguments and
returns `md5(JSON.stringify(keyObj))`.  The md5-of-JSON step is a fixed
deterministic function applied to the key object, so key equality follows
from key-object equality; we therefore model the generated key by the key
object itself. -/

/-- The options object handed to the external matcher, with exactly the
fields `executeDocsSearch` (src/index.ts lines 384-402, 684-702) can set,
plus the three fields `SearchCache._generateKey` additionally reads (which
`executeDocsSearch` never sets, hence `Option Bool`, `none` = JS
`undefined`). -/
structure SearchOptions where
  path : String
  query : String
  maxTokens : Nat
  skipTokens : Nat
  maxResults : Nat
  filterSet : Bool
  includeMatchDetails : Bool
  includeContent : Bool
  filesOnly : Bool
  json : Bool
  sessionSet : Bool
  semanticSearch : Option Bool
  fuzzyMatch : Option Bool
  includeCodeSnippets : Option Bool
deriving DecidableEq, Repr

/-- The canonical key object of `SearchCache._generateKey`. -/
structure CacheKeyObj where
  query : String
  path : String
  maxTokens : Nat
  skipTokens : Nat
  semanticSearch : Option Bool
  fuzzyMatch : Option Bool
  includeCodeSnippets : Option Bool
deriving DecidableEq, Repr

/-- `SearchCache._generateKey` (src/cache.js lines 25-42): the key is the
(hash of the) object holding `query` and exactly these six option fields. -/
def generateKeyObj (query : String) (o : SearchOptions) : CacheKeyObj :=
  { query := query
    path := o.path
    maxTokens := o.maxTokens
    skipTokens := o.skipTokens
    semanticSearch := o.semanticSearch
    fuzzyMatch := o.fuzzyMatch
    includeCodeSnippets := o.includeCodeSnippets }

/-! ## The ranking comparator (src/index.ts, lines 451-679)

`executeDocsSearch` installs `options.rankingFunction`, a comparator over
candidates `{path, matchCount}`.  Its path-classification helpers and
query-intent regex tests are embedded below.  A JS regex test such as
`/(cli|command|commands|amplify\s+\w+|cdk\s+\w+)/` on an unanchored search
is the disjunction, over the alternatives, of "some occurrence exists";
`kw\s+\w+` occurs iff some occurrence of `kw` is followed by at least one
whitespace character whose maximal whitespace run is followed by a word
character. -/

/-- A raw match candidate as passed to the ranking function. -/
structure Candidate where
  path : String
  matchCount : Nat
deriving DecidableEq, Repr

/-- `kw` followed by `\s+\w+` occurs somewhere in `s`. -/
def kwWsWord (kw : List Char) (s : List Char) : Bool :=
  s.tails.any (fun t =>
    kw.isPrefixOf t &&
    (match t.drop kw.length with
     | [] => false
     | c :: cs =>
       wsChar c &&
       (match cs.dropWhile (fun d => wsChar d) with
        | [] => false
        | d :: _ => wordChar d)))

/-- `(v₁|…)\s+(n₁|…)` occurs somewhere in `s` (verb, whitespace, noun). -/
def verbWsNoun (verbs nouns : List String) (s : List Char) : Bool :=
  s.tails.any (fun t =>
    verbs.any (fun v =>
      v.data.isPrefixOf t &&
      (match t.drop v.data.length with
       | [] => false
       | c :: cs =>
         wsChar c &&
         (let u := cs.dropWhile (fun d => wsChar d)
          nouns.any (fun n => n.data.isPrefixOf u)))))

/-- src/index.ts line 456: path under the main `[platform]` docs tree. -/
def isMainPlatformDoc (p : String) : Bool :=
  strContains (lowerStr p) "/src/pages/[platform]/"

/-- src/index.ts line 463: project-setup documentation path. -/
def isSetupDoc (p : String) : Bool :=
  let lp := lowerStr p
  strContains lp "/start/" || strContains lp "/getting-started/" ||
  strContains lp "/setup/" || strContains lp "/installation/" ||
  strContains lp "/quickstart/" || strContains lp "/project-setup/" ||
  strContains lp "/prerequisites/" || strContains lp "/init/" ||
  strContains lp "/create-new-app/"

/-- src/index.ts line 480: Gen 2 CLI command documentation. -/
def isGen2CliDoc (p : String) : Bool :=
  strContains (lowerStr p) "[platform]/reference/cli-commands/"

/-- src/index.ts line 486: Gen 1 CLI command documentation. -/
def isGen1CliDoc (p : String) : Bool :=
  let lp := lowerStr p
  strContains lp "/gen1/" && strContains lp "/tools/cli/commands/"

/-- src/index.ts line 495: path likely to be Gen 2 documentation. -/
def isGen2Doc (p : String) : Bool :=
  let lp := lowerStr p
  strContains lp "/gen2/" ||
  (strContains lp ".ts" && !(strContains lp "/fragments/")) ||
  strContains lp "backend" || strContains lp "/data/" ||
  strContains lp "/auth/" || strContains lp "/storage/" ||
  strContains lp "/function/" || strContains lp "cdk" ||
  strContains lp "typescript" || strContains lp "code-first"

/-- src/index.ts line 516: path likely to be Gen 1 documentation. -/
def isGen1Doc (p : String) : Bool :=
  let lp := lowerStr p
  strContains lp "/gen1/" || strContains lp "/fragments/" ||
  strContains lp "cli" || strContains lp ".schema" ||
  strContains lp "lib-v1"

/-- src/index.ts line 568: path containing TypeScript code examples. -/
def hasTypeScriptExamples (p : String) : Bool :=
  let lp := lowerStr p
  strContains lp "typescript" || strContains lp "code-first" ||
  strContains lp "cdk" ||
  (strContains lp ".ts" && !(strContains lp "/fragments/"))

/-- src/index.ts line 579: path containing CLI command examples. -/
def hasCliExamples (p : String) : Bool :=
  let lp := lowerStr p
  strContains lp "/cli/" || strContains lp "command" ||
  strContains lp "commands"

/-- src/index.ts line 1021: `processAdvancedQuery` returns its input. -/
def processAdvancedQuery (q : String) : String := q

/-- src/index.ts lines 529-533: setup/installation intent. -/
def isSetupQuery (q : String) : Bool :=
  let l := (lowerStr (processAdvancedQuery q)).data
  containsSub l "setup".data || containsSub l "install".data ||
  containsSub l "create".data || containsSub l "start".data ||
  containsSub l "init".data || containsSub l "begin".data ||
  containsSub l "new project".data || containsSub l "getting started".data ||
  containsSub l "quickstart".data || containsSub l "prerequisites".data

/-- src/index.ts lines 536-538: CLI command intent. -/
def isCliQuery (q : String) : Bool :=
  let l := (lowerStr (processAdvancedQuery q)).data
  containsSub l "cli".data || containsSub l "command".data ||
  containsSub l "commands".data ||
  kwWsWord "amplify".data l || kwWsWord "cdk".data l

/-- src/index.ts lines 541-545: resource-creation intent. -/
def isResourceCreationQuery (q : String) : Bool :=
  verbWsNoun ["create", "add", "define", "implement", "build", "configure"]
    ["resource", "api", "auth", "storage", "function", "database", "model"]
    (lowerStr (processAdvancedQuery q)).data

/-- src/index.ts lines 548-550: the query explicitly mentions Gen 2. -/
def queryMentionsGen2 (q : String) : Bool :=
  strContains (lowerStr (processAdvancedQuery q)) "gen2" ||
  strContains (lowerStr (processAdvancedQuery q)) "gen 2"

/-- src/index.ts lines 553-555: the query explicitly mentions Gen 1. -/
def queryMentionsGen1 (q : String) : Bool :=
  strContains (lowerStr (processAdvancedQuery q)) "gen1" ||
  strContains (lowerStr (processAdvancedQuery q)) "gen 1"

/-- The per-candidate booleans the comparator computes for one path
(src/index.ts lines 558-592, 643-644, 651-654, 667-672). `titleMatch`
additionally depends on the query (line 667). -/
structure PathFeats where
  setup : Bool
  gen2Cli : Bool
  gen1Cli : Bool
  gen2 : Bool
  gen1 : Bool
  hasTS : Bool
  hasCli : Bool
  mainPlatform : Bool
  titleMatch : Bool
deriving DecidableEq, Repr

/-- Evaluate the comparator's path predicates on one candidate path. -/
def pathFeats (q p : String) : PathFeats :=
  { setup := isSetupDoc p
    gen2Cli := isGen2CliDoc p
    gen1Cli := isGen1CliDoc p
    gen2 := isGen2Doc p
    gen1 := isGen1Doc p
    hasTS := hasTypeScriptExamples p
    hasCli := hasCliExamples p
    mainPlatform := isMainPlatformDoc p
    titleMatch :=
      strContains (lowerStr p) (lowerStr (processAdvancedQuery q)) }

/-- The query- and configuration-derived flags the comparator consults
(src/index.ts lines 529-555 plus `config.amplifyGeneration`). -/
structure QueryFlags where
  cli : Bool
  resource : Bool
  setup : Bool
  gen1 : Bool
  gen2 : Bool
  cfgGen : String
deriving DecidableEq, Repr

/-- Derive the comparator's query flags from the query string and the
configured generation. -/
def queryFlags (q cfgGen : String) : QueryFlags :=
  { cli := isCliQuery q
    resource := isResourceCreationQuery q
    setup := isSetupQuery q
    gen1 := queryMentionsGen1 q
    gen2 := queryMentionsGen2 q
    cfgGen := cfgGen }

/-- One boolean tie-break step: `if (aP && !bP) return -1; if (!aP && bP)
return 1;` with 0 meaning "fall through". -/
def prefBool (x y : Bool) : Int :=
  if x && !y then -1 else if !x && y then 1 else 0

/-- Sequencing of tie-break steps: an early `return` of a nonzero value
short-circuits the rest. -/
def cmpStep (x y : Int) : Int := if x = 0 then y else x

/-- Rule 1 (src/index.ts lines 595-613): CLI-intent generation preference. -/
def cliRule (f : QueryFlags) (fa fb : PathFeats) : Int :=
  if f.cli then
    if f.gen2 then prefBool fa.gen2Cli fb.gen2Cli
    else if f.gen1 then prefBool fa.gen1Cli fb.gen1Cli
    else if f.cfgGen = "gen2" then prefBool fa.gen2Cli fb.gen2Cli
    else if f.cfgGen = "gen1" then prefBool fa.gen1Cli fb.gen1Cli
    else 0
  else 0

/-- Rule 2 (src/index.ts lines 616-634): resource-creation preference. -/
def resourceRule (f : QueryFlags) (fa fb : PathFeats) : Int :=
  if f.resource then
    if f.gen2 then prefBool fa.hasTS fb.hasTS
    else if f.gen1 then prefBool fa.hasCli fb.hasCli
    else if f.cfgGen = "gen2" then prefBool fa.hasTS fb.hasTS
    else if f.cfgGen = "gen1" then prefBool fa.hasCli fb.hasCli
    else 0
  else 0

/-- Rule 3 (src/index.ts lines 637-640): setup-intent preference. -/
def setupRule (f : QueryFlags) (fa fb : PathFeats) : Int :=
  if f.setup then prefBool fa.setup fb.setup else 0

/-- Rule 5 (src/index.ts lines 657-664): generation preference. -/
def genRule (f : QueryFlags) (fa fb : PathFeats) : Int :=
  if f.gen1 then prefBool fa.gen1 fb.gen1
  else if fa.gen2 && fb.gen1 then -1
  else if fa.gen1 && fb.gen2 then 1
  else 0

/-- The full tie-break ladder on pre-computed features; the final step
(line 678) is `b.matchCount - a.matchCount`. -/
def rankCompare (f : QueryFlags) (fa : PathFeats) (ma : Nat)
    (fb : PathFeats) (mb : Nat) : Int :=
  cmpStep (cliRule f fa fb)
    (cmpStep (resourceRule f fa fb)
      (cmpStep (setupRule f fa fb)
        (cmpStep (prefBool fa.mainPlatform fb.mainPlatform)
          (cmpStep (genRule f fa fb)
            (cmpStep (prefBool fa.titleMatch fb.titleMatch)
              ((mb : Int) - (ma : Int)))))))

/-- `options.rankingFunction` (src/index.ts lines 451-679) for a fixed
query and configured generation. -/
def rankingFunction (query cfgGen : String) (a b : Candidate) : Int :=
  rankCompare (queryFlags query cfgGen)
    (pathFeats query a.path) a.matchCount
    (pathFeats query b.path) b.matchCount

/-! ## `DirectoryManager` (src/directory.ts)

The manifest loader is embedded with its mutable state made explicit as a
`DirState` record threaded through `load`/`processDirectory`.  JS `Map`s
are modelled as association lists with `Map.prototype.set` semantics
(replace in place, else append), preserving iteration order = insertion
order. -/

/-- `PageNode` (src/directory.ts lines 7-15), with the fields the loader
reads; `none` models an absent (`undefined`) field. -/
inductive PageNode where
  | mk (path : String) (children : Option (List PageNode))
      (platforms : Option (List String))

/-- The `path` field of a node. -/
def PageNode.path : PageNode → String
  | .mk p _ _ => p

/-- The mutable fields of `DirectoryManager` (src/directory.ts lines
21-26). -/
structure DirState where
  directory : Option PageNode
  flattenedPaths : List (String × PageNode)
  platformPaths : List (String × List PageNode)
  gen1Paths : List String
  gen2Paths : List String

/-- The freshly constructed manager: everything empty, no directory. -/
def initDirState : DirState :=
  { directory := none, flattenedPaths := [], platformPaths := [],
    gen1Paths := [], gen2Paths := [] }

/-- JS `Map.prototype.set`: replace the value in place if the key exists
(insertion order preserved), otherwise append. -/
def mapSet (m : List (String × PageNode)) (k : String) (v : PageNode) :
    List (String × PageNode) :=
  if m.any (fun e => e.1 = k) then
    m.map (fun e => if e.1 = k then (k, v) else e)
  else m ++ [(k, v)]

/-- src/directory.ts lines 139-144: ensure a platform bucket exists and
push the node onto it. -/
def addPlat (m : List (String × List PageNode)) (pl : String)
    (n : PageNode) : List (String × List PageNode) :=
  if m.any (fun e => e.1 = pl) then
    m.map (fun e => if e.1 = pl then (e.1, e.2 ++ [n]) else e)
  else m ++ [(pl, [n])]

mutual

/-- `flattenDirectory` (src/directory.ts lines 129-153): record the node in
the flattened map, bucket it by effective platforms
(`node.platforms || parentPlatforms`, only when nonempty), then recurse
into the children if present. -/
def flattenNode (st : DirState) (node : PageNode)
    (parentPlatforms : List String) : DirState :=
  match node with
  | .mk p cs pl =>
    let st1 := { st with
      flattenedPaths := mapSet st.flattenedPaths p (.mk p cs pl) }
    let platforms := pl.getD parentPlatforms
    let newPlat :=
      platforms.foldl (fun m q => addPlat m q (.mk p cs pl))
        st1.platformPaths
    let st2 :=
      if platforms.length > 0 then { st1 with platformPaths := newPlat }
      else st1
    match cs with
    | none => st2
    | some children => flattenChildren st2 children platforms

/-- The loop over `node.children`. -/
def flattenChildren (st : DirState) (ns : List PageNode)
    (pp : List String) : DirState :=
  match ns with
  | [] => st
  | n :: rest => flattenChildren (flattenNode st n pp) rest pp

end

/-- The Gen 1 test of `categorizeGenPaths` (src/directory.ts line 161). -/
def isGen1Path (p : String) : Bool :=
  strContains p "gen1/" || strContains p "/gen1/"

/-- The Gen 2 test of `categorizeGenPaths` (src/directory.ts lines
163-167): a platform-placeholder segment and no `gen1` segment. -/
def isGen2Path (p : String) : Bool :=
  strContains p "[platform]/" && !(strContains p "gen1/") &&
    !(strContains p "/gen1/")

/-- `categorizeGenPaths` (src/directory.ts lines 159-171): walk the
flattened map in iteration order, appending to the generation lists —
without clearing them first. -/
def categorize (st : DirState) : DirState :=
  st.flattenedPaths.foldl
    (fun s e =>
      if isGen1Path e.1 then
        { s with gen1Paths := s.gen1Paths ++ [e.1] }
      else if isGen2Path e.1 then
        { s with gen2Paths := s.gen2Paths ++ [e.1] }
      else s)
    st

/-- A quote character of the path regex `['"]` (apostrophe or double
quote). -/
def isQuote (c : Char) : Bool := c = Char.ofNat 39 || c = Char.ofNat 34

/-- One attempt of `/path:\s*['"]([^'"]+)['"]/` at the current position:
on success returns the captured path and the remainder after the closing
quote (the regex's `lastIndex`). -/
def tryPathMatch (s : List Char) : Option (String × List Char) :=
  if "path:".data.isPrefixOf s then
    match (s.drop 5).dropWhile (fun c => wsChar c) with
    | [] => none
    | q :: u =>
      if isQuote q then
        let body := u.takeWhile (fun c => !(isQuote c))
        if body.length > 0 then
          match u.drop body.length with
          | q₂ :: rest => if isQuote q₂ then some (String.mk body, rest) else none
          | [] => none
        else none
      else none
  else none

/-- The scan loop of `pathRegex.exec` (src/directory.ts lines 73-79): try a
match at each position, resuming after a match's end.  The fuel is the
remaining length; every step consumes at least one character. -/
def extractPathsGo : Nat → List Char → List String
  | 0, _ => []
  | _, [] => []
  | fuel + 1, c :: t =>
    match tryPathMatch (c :: t) with
    | some (p, rest) => p :: extractPathsGo fuel rest
    | none => extractPathsGo fuel t

/-- All paths extracted from the manifest text. -/
def extractPaths (content : String) : List String :=
  extractPathsGo content.data.length content.data

/-- The presence test of `/export const directory = ({[\s\S]*});/`
(src/directory.ts lines 56-58): some occurrence of
`export const directory = \x7b` followed, anywhere later, by `\x7d;`. -/
def hasDirectoryDecl (content : String) : Bool :=
  content.data.tails.any (fun t =>
    "export const directory = \x7b".data.isPrefixOf t &&
    containsSub (t.drop 26) "\x7d;".data)

/-- A leaf node of the simplified directory (src/directory.ts line 86). -/
def leafNode (p : String) : PageNode := .mk p none none

/-- The synthetic root path (src/directory.ts line 85). -/
def rootPath : String := "src/pages/index.tsx"

/-- `DirectoryManager.load` (src/directory.ts lines 45-100) followed by
`processDirectory` (lines 106-121): `none` content models a missing or
unreadable manifest file.  On success the simplified one-level directory is
stored and the lookup structures are extended (not rebuilt). -/
def loadDir (content : Option String) (st : DirState) : Bool × DirState :=
  match content with
  | none => (false, st)
  | some c =>
    if hasDirectoryDecl c then
      let paths := extractPaths c
      let root : PageNode := .mk rootPath (some (paths.map leafNode)) none
      let st1 := { st with directory := some root }
      (true, categorize (flattenNode st1 root []))
    else (false, st)

/-- JS `query.split(/\s+/)` on character lists: pieces between maximal
whitespace runs, keeping empty leading/trailing pieces as JS does. -/
def splitWsGo : List Char → List Char → List (List Char)
  | [], cur => [cur.reverse]
  | c :: t, cur =>
    if wsChar c then
      cur.reverse :: splitWsGo (t.dropWhile (fun d => wsChar d)) []
    else splitWsGo t (c :: cur)
termination_by l _ => l.length
decreasing_by
  · exact Nat.lt_succ_of_le (List.dropWhile_sublist _).length_le
  · exact Nat.lt_succ_of_le (Nat.le_refl _)

/-- JS `s.split(/\s+/)` on strings. -/
def splitWs (s : String) : List String := (splitWsGo s.data []).map String.mk

/-- The query terms of `getMatchingPaths` (src/directory.ts lines
182-185): lowercase, split on whitespace, keep terms longer than 2. -/
def queryTermsOf (q : String) : List String :=
  (splitWs (lowerStr q)).filter (fun t => t.length > 2)

/-- `DirectoryManager.getMatchingPaths` (src/directory.ts lines 179-202). -/
def getMatchingPaths (st : DirState) (query generation : String) :
    List String :=
  match st.directory with
  | none => []
  | some _ =>
    let terms := queryTermsOf query
    let pathsToSearch :=
      if generation = "gen1" then st.gen1Paths
      else if generation = "gen2" then st.gen2Paths
      else st.gen1Paths ++ st.gen2Paths
    pathsToSearch.filter (fun p =>
      terms.any (fun t => strContains (lowerStr p) t))

/-- The spec-side phrasing of the query match (spec §4.2): the path text
contains SOME raw query term of length greater than 2 as a
case-insensitive substring. -/
def specTermMatch (q p : String) : Bool :=
  (splitWs q).any (fun t =>
    t.length > 2 && strContains (lowerStr p) (lowerStr t))

/-- Value-determinedness of an association list: every entry's value is the
canonical node of its key. -/
def detBy (m : List (String × PageNode)) (f : String → PageNode) : Prop :=
  ∀ e ∈ m, e.2 = f e.1

/-- The structural invariant of the generation lists (claim C10): every
Gen 1 entry carries a `gen1` segment, every Gen 2 entry carries none, and
every entry of either list is a key of the flattened map. -/
def dirInv (st : DirState) : Prop :=
  (∀ p ∈ st.gen1Paths, isGen1Path p = true) ∧
  (∀ p ∈ st.gen2Paths, isGen2Path p = true) ∧
  (∀ p, p ∈ st.gen1Paths ∨ p ∈ st.gen2Paths →
    p ∈ st.flattenedPaths.map Prod.fst)

/-- A small concrete manifest with one Gen 1 and one Gen 2 path, used by
closed instances. -/
def sampleManifest : String :=
  "export const directory = \x7b path: \"a/gen1/create-api\" \x7d; " ++
  "\x7b path: \"x/[platform]/create/api/\" \x7d;"

/-! ## `executeDocsSearch` control flow (src/index.ts, lines 282-761)

The orchestration skeleton is embedded as a total function over an explicit
environment of external outcomes: filesystem existence/reads, the
`findRelevantHeadings` pre-pass result, the result-cache lookup (keyed by
the `CacheKeyObj` above, with the 24-hour TTL folded into the lookup
outcome), and the external `probe` matcher call.  The two formatting
functions (`formatResults` and the session heading block of lines 322-357)
only transform strings already produced and are supplied by the
environment; the claims settled against this model do not depend on them.
The trace records which side effects the invocation performed. -/

/-- A heading entry (`HeadingInfo`, src/index.ts lines 22-27). -/
structure HeadingInfo where
  path : String
  heading : String
  level : Nat
  content : String
deriving DecidableEq, Repr

/-- The tool arguments (`SearchArgs`, src/index.ts lines 90-100).  Optional
string arguments model JS `undefined`/empty (both falsy) as `""`; optional
numbers model `args.page || 1` / `args.maxResults || 10` behaviour, where
`none` and `some 0` are both falsy. -/
structure Args where
  query : String
  page : Option Nat
  includeContent : Bool
  maxResults : Option Nat
  filesOnly : Bool
  useJson : Bool
  sessionId : String
  fullContent : Bool
  filePath : String
deriving DecidableEq, Repr

/-- External outcomes and collaborator functions for one invocation. -/
structure OrchestratorEnv where
  dataDir : String
  fileExists : String → Bool
  readFile : String → Except String String
  headingsOutcome : Except String (List HeadingInfo)
  formatHeadings : List HeadingInfo → String
  cacheLookup : CacheKeyObj → Option String
  matcher : SearchOptions → Except String String
  format : String → String
  filterAvailable : Bool

/-- What one `executeDocsSearch` invocation returned and did. -/
structure ExecTrace where
  result : String
  cacheChecked : Bool
  matcherInvoked : Bool
  cacheStored : Bool
deriving DecidableEq, Repr

/-- The session-heading pre-pass (src/index.ts lines 310-370): when a
session id is supplied, relevant headings were found and `filesOnly` is
set, the formatted heading block is returned early; heading-lookup errors
are swallowed and the regular search continues. -/
def headingEarlyReturn (env : OrchestratorEnv) (args : Args) :
    Option String :=
  if args.sessionId ≠ "" then
    match env.headingsOutcome with
    | .ok hs =>
      if hs.length > 0 && args.filesOnly then some (env.formatHeadings hs)
      else none
    | .error _ => none
  else none

/-- The options object built at src/index.ts lines 376-402 and 684-702:
fixed 25000-token page size, skip offset `(page-1)*pageSize`, default
`maxResults` 10, content/filesOnly/json/session flags copied from the
arguments, and the three cache-only feature flags never set. -/
def builtOptions (env : OrchestratorEnv) (args : Args) : SearchOptions :=
  let page := match args.page with | none => 1 | some 0 => 1 | some n => n
  { path := env.dataDir
    query := processAdvancedQuery args.query
    maxTokens := 25000
    skipTokens := (page - 1) * 25000
    maxResults := match args.maxResults with | none => 10 | some 0 => 10 | some n => n
    filterSet := env.filterAvailable
    includeMatchDetails := args.includeContent
    includeContent := args.includeContent
    filesOnly := args.filesOnly
    json := args.useJson
    sessionSet := args.sessionId ≠ ""
    semanticSearch := none
    fuzzyMatch := none
    includeCodeSnippets := none }

/-- `executeDocsSearch` (src/index.ts lines 282-761).  Branches in source
order: the full-content branch (lines 285-307), the session heading
pre-pass (lines 310-370), the cache check — skipped when `includeContent`
is requested (lines 711-720) — the matcher call, the unconditional
`cache.set` after a successful call (line 740), and the error-to-string
conversion of matcher failures (lines 744-751). -/
def executeDocsSearch (env : OrchestratorEnv) (args : Args) : ExecTrace :=
  if args.fullContent && args.filePath ≠ "" then
    if !(env.fileExists args.filePath) then
      { result := "File not found: " ++ args.filePath
        cacheChecked := false, matcherInvoked := false, cacheStored := false }
    else
      match env.readFile args.filePath with
      | .ok content =>
        { result := "Full content of file: " ++ args.filePath ++ "\n\n" ++
            "```\n" ++ content ++ "\n```\n"
          cacheChecked := false, matcherInvoked := false, cacheStored := false }
      | .error e =>
        { result := "Error reading file " ++ args.filePath ++ ": " ++ e
          cacheChecked := false, matcherInvoked := false, cacheStored := false }
  else
    match headingEarlyReturn env args with
    | some r =>
      { result := r
        cacheChecked := false, matcherInvoked := false, cacheStored := false }
    | none =>
      let opts := builtOptions env args
      if !args.includeContent then
        match env.cacheLookup
            (generateKeyObj (processAdvancedQuery args.query) opts) with
        | some cached =>
          { result := env.format cached
            cacheChecked := true, matcherInvoked := false, cacheStored := false }
        | none =>
          match env.matcher opts with
          | .ok res =>
            { result := env.format res
              cacheChecked := true, matcherInvoked := true, cacheStored := true }
          | .error e =>
            { result := "Error during search: " ++ e
              cacheChecked := true, matcherInvoked := true, cacheStored := false }
      else
        match env.matcher opts with
        | .ok res =>
          { result := env.format res
            cacheChecked := false, matcherInvoked := true, cacheStored := true }
        | .error e =>
          { result := "Error during search: " ++ e
            cacheChecked := false, matcherInvoked := true, cacheStored := false }

/-! ## `setupGitRepo` / `setupWithGit` / `setupWithTarball` (src/git.ts)

The acquisition strategies are embedded over an environment of primitive
outcomes: the internals of `setupWithGit`'s try-block (`gitBody`, whose
details are irrelevant because its catch at lines 255-259 only logs), the
per-ref tarball download attempt (`download`, covering the `emptyDir`, the
fetch and the extraction, with the thrown error's message as the error
value), and the placeholder `ensureDir`+`writeFile` (`placeholderWrite`).
An `Except.error` result of the embedded functions models a JS rejection
crossing that function's boundary.  The trace records which refs were
attempted, whether the git-clone fallback was invoked, and whether the
placeholder write was attempted. -/

/-- Outcomes of the primitive effects used by the synchronizer. -/
structure SyncEnv where
  gitBody : Bool → Except String Unit
  download : String → Except String Unit
  placeholderWrite : Except String Unit

/-- The configuration fields `setupGitRepo` consults. -/
structure SyncConfig where
  gitUrl : String
  gitRef : String
  autoUpdateInterval : Nat
deriving DecidableEq, Repr

/-- Which acquisition steps a synchronizer run performed. -/
structure SyncTrace where
  downloads : List String
  cloneFallback : Bool
  placeholderWritten : Bool
deriving DecidableEq, Repr

/-- The anchored GitHub-URL test of src/git.ts line 272
(`/github\.com\/([^/]+)\/([^/]+?)(\.git)?$/`): some occurrence of
`github.com/` is followed by a nonempty slash-free owner, a slash and a
nonempty slash-free repo part extending to the end of the string. -/
def githubUrlMatches (u : String) : Bool :=
  u.data.tails.any (fun t =>
    "github.com/".data.isPrefixOf t &&
    (let r := t.drop 11
     let owner := r.takeWhile (fun c => c ≠ '/')
     owner.length > 0 &&
     (match r.drop owner.length with
      | [] => false
      | _ :: repo => repo.length > 0 && repo.all (fun c => c ≠ '/'))))

/-- `setupWithGit` (src/git.ts lines 68-260): the whole body sits in a
try-block whose catch only restores `console.log` and logs, so the call
resolves normally regardless of the body's outcome. -/
def setupWithGitM (env : SyncEnv) (isUpdate : Bool) : Except String Unit :=
  match env.gitBody isUpdate with
  | .ok _ => .ok ()
  | .error _ => .ok ()

/-- The ref the tarball strategy downloads first:
`config.gitRef || 'main'` (src/git.ts line 283). -/
def tarballRef (cfg : SyncConfig) : String :=
  if cfg.gitRef = "" then "main" else cfg.gitRef

/-- The catch handler of `setupWithTarball` (src/git.ts lines 332-381),
invoked when the first download attempt rejected with message `e`. -/
def tarballRecover (cfg : SyncConfig) (env : SyncEnv) (e : String) :
    Except String Unit × SyncTrace :=
  if tarballRef cfg = "main" && strContains e "Status: 404" then
    match env.download "master" with
    | .ok _ =>
      (.ok (),
       { downloads := [tarballRef cfg, "master"], cloneFallback := false,
         placeholderWritten := false })
    | .error _ =>
      (setupWithGitM env false,
       { downloads := [tarballRef cfg, "master"], cloneFallback := true,
         placeholderWritten := false })
  else if strContains (lowerStr e) "no space left on device" then
    (env.placeholderWrite,
     { downloads := [tarballRef cfg], cloneFallback := false,
       placeholderWritten := true })
  else
    match setupWithGitM env false with
    | .ok _ =>
      (.ok (),
       { downloads := [tarballRef cfg], cloneFallback := true,
         placeholderWritten := false })
    | .error _ =>
      (env.placeholderWrite,
       { downloads := [tarballRef cfg], cloneFallback := true,
         placeholderWritten := true })

/-- `setupWithTarball` (src/git.ts lines 267-382): non-GitHub URLs fall
back to git clone; otherwise download the first ref and on rejection run
the catch handler `tarballRecover`. -/
def setupWithTarballM (cfg : SyncConfig) (env : SyncEnv) :
    Except String Unit × SyncTrace :=
  if !githubUrlMatches cfg.gitUrl then
    (setupWithGitM env false,
     { downloads := [], cloneFallback := true, placeholderWritten := false })
  else
    match env.download (tarballRef cfg) with
    | .ok _ =>
      (.ok (),
       { downloads := [tarballRef cfg], cloneFallback := false,
         placeholderWritten := false })
    | .error e => tarballRecover cfg env e

/-- `setupGitRepo` (src/git.ts lines 18-39): no-op without a git URL; the
incremental (git) strategy when periodic refresh is enabled, the snapshot
(tarball) strategy otherwise; its catch logs the error and RETHROWS it
(line 37), so the strategy's outcome passes through unchanged. -/
def setupGitRepoM (cfg : SyncConfig) (env : SyncEnv) (isUpdate : Bool) :
    Except String Unit × SyncTrace :=
  if cfg.gitUrl = "" then
    (.ok (), { downloads := [], cloneFallback := false, placeholderWritten := false })
  else if cfg.autoUpdateInterval > 0 then
    (setupWithGitM env isUpdate,
     { downloads := [], cloneFallback := false, placeholderWritten := false })
  else
    setupWithTarballM cfg env

/-! ## `extractHeadings` (src/index.ts, lines 1039-1067)

The extraction runs `/^(#{1,6})\s+(.+)$/gm` over the file text and, for
each match, finds the next heading (`/^#{1,6}\s+.+$/m`) in the remaining
slice to delimit the body.  The regex engine's behaviour for this pattern
is embedded exactly: `^`/`$` match at line boundaries (after/before `\n`
or `\r`), `.` excludes line terminators, `\s+` is greedy over whitespace
(which may include line terminators); when the input ends inside the
whitespace run, the engine backtracks to the last non-terminator
whitespace character at position ≥ 1 of the run, which then becomes the
`(.+)` capture with `$` matching before the trailing terminators (no
match if no such character exists); the global scan resumes after each
match's end (`lastIndex`), only testing positions that are line starts. -/

/-- A line terminator for `^`, `$` and `.`. -/
def lineTerm (c : Char) : Bool := c = '\n' || c = '\r'

/-- JS `String.prototype.trim` (whitespace from both ends). -/
def trimL (l : List Char) : List Char :=
  ((l.dropWhile (fun c => wsChar c)).reverse.dropWhile
    (fun c => wsChar c)).reverse

/-- The `\s+(.+)$` part of the heading pattern, applied after `lvl` marker
characters have been consumed: greedy whitespace (at least one character),
then the dot-matched heading text up to the line end.  When the input ends
inside the whitespace run (the run swallows the whole input), `(.+)`
backtracks into the run: the match succeeds iff the run contains a
non-terminator character at position ≥ 1, the last such character becomes
the capture, and the remainder is the trailing terminator suffix. -/
def hmatchAux (lvl : Nat) (rest : List Char) :
    Option (Nat × List Char × List Char) :=
  if (rest.takeWhile (fun c => wsChar c)).length = 0 then none
  else
    match rest.drop ((rest.takeWhile (fun c => wsChar c)).length) with
    | [] =>
      match rest.reverse.dropWhile (fun c => lineTerm c) with
      | [] => none
      | c :: cs =>
        if cs = [] then none
        else some (lvl, [c],
          (rest.reverse.takeWhile (fun c => lineTerm c)).reverse)
    | d :: ds =>
      some (lvl, (d :: ds).takeWhile (fun c => !(lineTerm c)),
        (d :: ds).drop (((d :: ds).takeWhile (fun c => !(lineTerm c))).length))

/-- One attempt of `^(#{1,6})\s+(.+)$` at a line-start position: on success
returns the heading level, the raw captured heading text, and the
remainder of the input after the match. -/
def hmatchAt (s : List Char) : Option (Nat × List Char × List Char) :=
  if 1 ≤ (s.takeWhile (fun c => c = '#')).length ∧
      (s.takeWhile (fun c => c = '#')).length ≤ 6 then
    hmatchAux ((s.takeWhile (fun c => c = '#')).length)
      (s.drop ((s.takeWhile (fun c => c = '#')).length))
  else none

/-- The tail returned by `hmatchAux` is no longer than its input. -/
theorem hmatchAux_rest_le (lvl : Nat) (u : List Char) (l : Nat)
    (raw rest : List Char) (h : hmatchAux lvl u = some (l, raw, rest)) :
    rest.length ≤ u.length := by
  unfold hmatchAux at h
  split_ifs at h with h1
  rcases hd : u.drop ((u.takeWhile (fun c => wsChar c)).length)
      with _ | ⟨d, ds⟩
  all_goals rw [hd] at h
  all_goals dsimp only at h
  · rcases hl : u.reverse.dropWhile (fun c => lineTerm c) with _ | ⟨c, cs⟩
    all_goals rw [hl] at h
    all_goals dsimp only at h
    · exact absurd h (by simp)
    · split_ifs at h
      have hrest : rest = (u.reverse.takeWhile (fun c => lineTerm c)).reverse := by
        have := Option.some.inj h
        exact (congrArg (fun x => x.2.2) this).symm
      rw [hrest]
      calc ((u.reverse.takeWhile (fun c => lineTerm c)).reverse).length
          = (u.reverse.takeWhile (fun c => lineTerm c)).length :=
            List.length_reverse _
        _ ≤ u.reverse.length := (List.takeWhile_sublist _).length_le
        _ = u.length := List.length_reverse _
  · have hrest : rest = (d :: ds).drop
        (((d :: ds).takeWhile (fun c => !(lineTerm c))).length) := by
      have := Option.some.inj h
      exact (congrArg (fun x => x.2.2) this).symm
    have h2 : (d :: ds).length ≤
        (u.drop ((u.takeWhile (fun c => wsChar c)).length)).length := by
      rw [← hd]
    have h3 : rest.length ≤ (d :: ds).length := by
      rw [hrest]
      exact (List.drop_sublist _ _).length_le
    have h4 := List.length_drop ((u.takeWhile (fun c => wsChar c)).length) u
    omega

/-- A successful match consumes at least one character. -/
theorem hmatchAt_rest_lt (s : List Char) (lvl : Nat) (raw rest : List Char)
    (h : hmatchAt s = some (lvl, raw, rest)) : rest.length < s.length := by
  unfold hmatchAt at h
  split_ifs at h with h1
  have h2 := hmatchAux_rest_le _ _ _ _ _ h
  have h3 := List.length_drop ((s.takeWhile (fun c => c = '#')).length) s
  have h4 : 1 ≤ (s.takeWhile (fun c => c = '#')).length := h1.1
  have h5 : (s.takeWhile (fun c => c = '#')).length ≤ s.length :=
    (List.takeWhile_sublist _).length_le
  omega

/-- The global scan of `headingRegex.exec` (src/index.ts lines 1043-1064):
walk the input, testing the pattern at line-start positions only, resuming
after each match's end with the line-start flag recomputed from the
consumed character. -/
def scanHs (s : List Char) (atStart : Bool) :
    List (Nat × List Char × List Char) :=
  match s with
  | [] => []
  | c :: t =>
    if atStart then
      match hm : hmatchAt (c :: t) with
      | some (lvl, raw, rest) => (lvl, raw, rest) :: scanHs rest false
      | none => scanHs t (lineTerm c)
    else scanHs t (lineTerm c)
termination_by s.length
decreasing_by
  · exact hmatchAt_rest_lt _ _ _ _ hm
  · simp
  · simp

/-- The body-delimiting search `content.slice(startPos).match(/^#{1,6}\s+.+$/m)`
(src/index.ts line 1050): index of the first line-start position in the
slice where the heading pattern matches. -/
def firstHIdx : List Char → Bool → Nat → Option Nat
  | [], _, _ => none
  | c :: t, atStart, pos =>
    if atStart && (hmatchAt (c :: t)).isSome then some pos
    else firstHIdx t (lineTerm c) (pos + 1)

/-- The body slice of one heading (src/index.ts lines 1049-1056): from the
end of the match to the next heading's start, or to the end of input. -/
def bodyOf (suffix : List Char) : List Char :=
  match firstHIdx suffix true 0 with
  | some i => suffix.take i
  | none => suffix

/-- `extractHeadings(content, filePath)` (src/index.ts lines 1039-1067). -/
def extractHeadings (content : String) (filePath : String) :
    List HeadingInfo :=
  (scanHs content.data true).map (fun e =>
    { path := filePath
      heading := String.mk (trimL e.2.1)
      level := e.1
      content := String.mk (trimL (bodyOf e.2.2)) })

/-- Spec-side line classification: a heading line consists of 1–6 marker
characters, at least one whitespace character, and nonempty heading
text — returning the marker count and the raw text. -/
def lineHeadingParse (line : List Char) : Option (Nat × List Char) :=
  let h := (line.takeWhile (fun c => c = '#')).length
  if 1 ≤ h ∧ h ≤ 6 then
    let rest := line.drop h
    let w := (rest.takeWhile (fun c => wsChar c)).length
    if 1 ≤ w ∧ rest.drop w ≠ [] then some (h, rest.drop w) else none
  else none

/-- Spec-side extraction over a list of lines (spec §4.3): one entry per
heading line, its depth the marker count, its body the text of the lines
from immediately after the heading line to the start of the next heading
line or end of file. -/
def specAssemble (filePath : String) : List (List Char) → List HeadingInfo
  | [] => []
  | l :: rest =>
    match lineHeadingParse l with
    | some (h, text) =>
      { path := filePath
        heading := String.mk (trimL text)
        level := h
        content := String.mk (trimL (List.intercalate ['\n']
          (rest.takeWhile (fun l₂ => (lineHeadingParse l₂).isNone)))) } ::
      specAssemble filePath
        (rest.dropWhile (fun l₂ => (lineHeadingParse l₂).isNone))
    | none => specAssemble filePath rest
termination_by l => l.length
decreasing_by
  · exact Nat.lt_succ_of_le (List.dropWhile_sublist _).length_le
  · exact Nat.lt_succ_of_le (Nat.le_refl _)

/-- The remainder of the input after a heading line: empty at end of file,
otherwise the separating newline followed by the remaining lines. -/
def seamOf (rest : List (List Char)) : List Char :=
  if rest = [] then [] else '\n' :: List.intercalate ['\n'] rest

/-- The scanner's output described per line (proof-side companion of
`scanHs`). -/
def specScan : List (List Char) → List (Nat × List Char × List Char)
  | [] => []
  | l :: rest =>
    match lineHeadingParse l with
    | some (h, text) => (h, text, seamOf rest) :: specScan rest
    | none => specScan rest

/-- Offset (in characters of the joined text) of the first heading line. -/
def firstHeadingOffset : List (List Char) → Option Nat
  | [] => none
  | l :: rest =>
    if (lineHeadingParse l).isSome then some 0
    else (firstHeadingOffset rest).map (fun off => l.length + 1 + off)

/-- Canonical-form hypothesis for a line decomposition: no line contains a
line terminator, and every line that starts with a marker character is a
proper single-line heading. -/
def properLines (lines : List (List Char)) : Prop :=
  ∀ l ∈ lines, ('\n' ∉ l ∧ '\r' ∉ l) ∧
    (l.head? = some '#' → (lineHeadingParse l).isSome)

/-- Sample configuration: GitHub source, ref `main`, refresh disabled (so
the snapshot/tarball strategy is selected). -/
def sampleSyncConfig : SyncConfig :=
  { gitUrl := "https://github.com/aws-amplify/docs", gitRef := "main",
    autoUpdateInterval := 0 }

/-- Sample outcome environment: the disk is full — every tarball download
rejects with an ENOSPC message and the placeholder write itself rejects. -/
def syncEnvDiskFull : SyncEnv :=
  { gitBody := fun _ => .ok ()
    download := fun _ =>
      .error "Failed to download tarball: ENOSPC: no space left on device, write"
    placeholderWrite := .error "ENOSPC" }

/-- Sample outcome environment: ref `main` does not exist upstream (404),
ref `master` downloads fine. -/
def syncEnv404 : SyncEnv :=
  { gitBody := fun _ => .ok ()
    download := fun r =>
      if r = "main" then
        .error "Failed to download tarball: HTTP error! Status: 404"
      else .ok ()
    placeholderWrite := .ok () }

/-- A concrete sample environment used by closed instances: empty corpus
state, a matcher that returns "R", one readable file "/etc/hostname"
outside the corpus root "/data". -/
def sampleEnv : OrchestratorEnv :=
  { dataDir := "/data"
    fileExists := fun p => p == "/etc/hostname"
    readFile := fun p =>
      if p == "/etc/hostname" then .ok "host-a" else .error "ENOENT"
    headingsOutcome := .ok []
    formatHeadings := fun _ => ""
    cacheLookup := fun _ => none
    matcher := fun _ => .ok "R"
    format := fun s => s
    filterAvailable := false }

/-- Sample arguments: a plain query with no optional features. -/
def sampleArgs : Args :=
  { query := "auth", page := none, includeContent := false,
    maxResults := none, filesOnly := false, useJson := false,
    sessionId := "", fullContent := false, filePath := "" }

/-! ## Theorems -/

/-- Character equality is code-point equality. -/
theorem char_eq_iff_toNat (c d : Char) : (c = d) ↔ (c.toNat = d.toNat) := by
  constructor
  · rintro rfl
    rfl
  · intro h
    apply Char.ext
    exact UInt32.ext h

/-- `Char.ofNat` on a valid code point round-trips through `toNat`. -/
theorem toNat_ofNat_valid (n : Nat) (h : n.isValidChar) :
    (Char.ofNat n).toNat = n := by
  unfold Char.ofNat
  rw [dif_pos h]
  unfold Char.ofNatAux Char.toNat
  simp [UInt32.toNat, BitVec.toNat_ofNatLt]

/-- The whitespace test in terms of code points. -/
theorem wsChar_toNat (c : Char) :
    wsChar c = (decide (c.toNat = 32) || decide (c.toNat = 9) ||
      decide (c.toNat = 10) || decide (c.toNat = 13)) := by
  unfold wsChar
  rw [show (decide (c = ' ')) = decide (c.toNat = 32) from
    decide_eq_decide.mpr (char_eq_iff_toNat c ' ')]
  rw [show (decide (c = '\t')) = decide (c.toNat = 9) from
    decide_eq_decide.mpr (char_eq_iff_toNat c '\t')]
  rw [show (decide (c = '\n')) = decide (c.toNat = 10) from
    decide_eq_decide.mpr (char_eq_iff_toNat c '\n')]
  rw [show (decide (c = '\r')) = decide (c.toNat = 13) from
    decide_eq_decide.mpr (char_eq_iff_toNat c '\r')]

/-- Lowercasing never creates or destroys whitespace. -/
theorem lowerChar_ws (c : Char) : wsChar (lowerChar c) = wsChar c := by
  by_cases h : 65 ≤ c.toNat ∧ c.toNat ≤ 90
  · rw [lowerChar, if_pos h]
    rw [wsChar_toNat, wsChar_toNat]
    rw [toNat_ofNat_valid _ (Or.inl (by omega))]
    have h1 : (decide (c.toNat + 32 = 32) || decide (c.toNat + 32 = 9) ||
        decide (c.toNat + 32 = 10) || decide (c.toNat + 32 = 13)) = false := by
      simp only [Bool.or_eq_false_iff, decide_eq_false_iff_not]
      omega
    have h2 : (decide (c.toNat = 32) || decide (c.toNat = 9) ||
        decide (c.toNat = 10) || decide (c.toNat = 13)) = false := by
      simp only [Bool.or_eq_false_iff, decide_eq_false_iff_not]
      omega
    rw [h1, h2]
  · rw [lowerChar, if_neg h]

/-- `dropWhile` of whitespace commutes with lowercasing. -/
theorem dropWhile_ws_lower (t : List Char) :
    (lowerL t).dropWhile (fun d => wsChar d) =
      lowerL (t.dropWhile (fun d => wsChar d)) := by
  induction t with
  | nil => rfl
  | cons c t ih =>
    simp only [lowerL, List.map_cons, List.dropWhile_cons, lowerChar_ws]
    by_cases h : wsChar c = true
    · simpa [h, lowerL] using ih
    · simp [h, lowerL]

/-- `split(/\s+/)` commutes with lowercasing. -/
theorem splitWsGo_lower (l cur : List Char) :
    splitWsGo (lowerL l) (lowerL cur) = (splitWsGo l cur).map lowerL := by
  induction l, cur using splitWsGo.induct with
  | case1 cur =>
    simp [splitWsGo, lowerL, List.map_reverse]
  | case2 c t cur h ih =>
    rw [show lowerL (c :: t) = lowerChar c :: lowerL t from rfl]
    rw [splitWsGo, splitWsGo]
    rw [lowerChar_ws]
    rw [if_pos h, if_pos h]
    rw [show lowerL (List.dropWhile (fun d => wsChar d) t) =
        List.dropWhile (fun d => wsChar d) (lowerL t) from
      (dropWhile_ws_lower t).symm] at ih
    rw [show (splitWsGo (List.dropWhile (fun d => wsChar d) (lowerL t)) [])
        = (splitWsGo (List.dropWhile (fun d => wsChar d) t) []).map lowerL
      from ih]
    simp [lowerL, List.map_reverse]
  | case3 c t cur h ih =>
    rw [show lowerL (c :: t) = lowerChar c :: lowerL t from rfl]
    rw [splitWsGo, splitWsGo]
    rw [lowerChar_ws]
    rw [if_neg h, if_neg h]
    exact ih

/-- One boolean tie-break step negates under swapping its arguments. -/
theorem prefBool_neg (x y : Bool) : prefBool x y = -prefBool y x := by
  cases x <;> cases y <;> decide

/-- `cmpStep` composes antisymmetric steps. -/
theorem cmpStep_neg {x y u v : Int} (hx : x = -u) (hy : y = -v) :
    cmpStep x y = -cmpStep u v := by
  subst hx hy
  unfold cmpStep
  by_cases h : u = 0 <;> simp [h]

/-- Rule 1 (CLI intent) is antisymmetric. -/
theorem cliRule_neg (f : QueryFlags) (fa fb : PathFeats) :
    cliRule f fa fb = -cliRule f fb fa := by
  unfold cliRule
  split_ifs <;> first | exact prefBool_neg _ _ | decide

/-- Rule 2 (resource creation) is antisymmetric. -/
theorem resourceRule_neg (f : QueryFlags) (fa fb : PathFeats) :
    resourceRule f fa fb = -resourceRule f fb fa := by
  unfold resourceRule
  split_ifs <;> first | exact prefBool_neg _ _ | decide

/-- Rule 3 (setup intent) is antisymmetric. -/
theorem setupRule_neg (f : QueryFlags) (fa fb : PathFeats) :
    setupRule f fa fb = -setupRule f fb fa := by
  unfold setupRule
  split_ifs <;> first | exact prefBool_neg _ _ | decide

/-- Rule 5 (generation preference) is antisymmetric provided the two
candidates are not both classified as Gen 1 and Gen 2 simultaneously. -/
theorem genRule_neg (f : QueryFlags) (fa fb : PathFeats)
    (h : ¬(fa.gen1 = true ∧ fa.gen2 = true ∧ fb.gen1 = true ∧ fb.gen2 = true)) :
    genRule f fa fb = -genRule f fb fa := by
  unfold genRule
  by_cases hf : f.gen1 = true
  · simp only [hf, if_true]
    exact prefBool_neg _ _
  · simp only [hf, if_false]
    rcases ha1 : fa.gen1 <;> rcases ha2 : fa.gen2 <;>
      rcases hb1 : fb.gen1 <;> rcases hb2 : fb.gen2 <;> simp_all

/-- The whole tie-break ladder is antisymmetric under the same proviso. -/
theorem rankCompare_neg (f : QueryFlags) (fa fb : PathFeats) (ma mb : Nat)
    (h : ¬(fa.gen1 = true ∧ fa.gen2 = true ∧ fb.gen1 = true ∧ fb.gen2 = true)) :
    rankCompare f fa ma fb mb = -rankCompare f fb mb fa ma := by
  unfold rankCompare
  exact cmpStep_neg (cliRule_neg f fa fb)
    (cmpStep_neg (resourceRule_neg f fa fb)
      (cmpStep_neg (setupRule_neg f fa fb)
        (cmpStep_neg (prefBool_neg _ _)
          (cmpStep_neg (genRule_neg f fa fb h)
            (cmpStep_neg (prefBool_neg _ _) (by omega))))))

/-- C2 (counterexample): options that change the matcher's result content do
NOT all participate in the cache key.  `filesOnly` (paths-only results),
`json` (structured results) and `maxResults` (result count limit) all change
the matcher's result content, yet two option objects differing exactly in
those three fields receive the identical cache key object — hence the
identical md5 key. -/
theorem generateKey_ignores_content_flags :
    generateKeyObj "q"
      { path := "/data", query := "q", maxTokens := 25000, skipTokens := 0,
        maxResults := 10, filterSet := false, includeMatchDetails := false,
        includeContent := false, filesOnly := false, json := false,
        sessionSet := false, semanticSearch := none, fuzzyMatch := none,
        includeCodeSnippets := none } =
    generateKeyObj "q"
      { path := "/data", query := "q", maxTokens := 25000, skipTokens := 0,
        maxResults := 3, filterSet := false, includeMatchDetails := false,
        includeContent := false, filesOnly := true, json := true,
        sessionSet := false, semanticSearch := none, fuzzyMatch := none,
        includeCodeSnippets := none } := by
  decide

/-- C2 (amended): the cache key is a pure function of the query together
with exactly the option fields `path` (corpus root), `maxTokens` (token
budget), `skipTokens` (token skip offset), `semanticSearch`, `fuzzyMatch`
and `includeCodeSnippets`: any two option objects agreeing on those six
fields produce the identical key.  However, not every option that changes
the matcher's result content participates: `filesOnly`, `json` and
`maxResults` are excluded from the key (see the counterexample), and the
three matcher feature flags that do participate are never set by
`executeDocsSearch`. -/
theorem generateKey_pure_in_subset (q : String) (o₁ o₂ : SearchOptions)
    (hp : o₁.path = o₂.path) (hm : o₁.maxTokens = o₂.maxTokens)
    (hs : o₁.skipTokens = o₂.skipTokens)
    (h₁ : o₁.semanticSearch = o₂.semanticSearch)
    (h₂ : o₁.fuzzyMatch = o₂.fuzzyMatch)
    (h₃ : o₁.includeCodeSnippets = o₂.includeCodeSnippets) :
    generateKeyObj q o₁ = generateKeyObj q o₂ := by
  unfold generateKeyObj
  rw [hp, hm, hs, h₁, h₂, h₃]

/-- C2 (witness): the purity theorem applied to two concrete option objects
that agree on the six key fields but differ in display options. -/
theorem generateKey_pure_in_subset_witness :
    generateKeyObj "auth"
      { path := "/data", query := "auth", maxTokens := 25000, skipTokens := 0,
        maxResults := 10, filterSet := false, includeMatchDetails := false,
        includeContent := false, filesOnly := false, json := false,
        sessionSet := false, semanticSearch := none, fuzzyMatch := none,
        includeCodeSnippets := none } =
    generateKeyObj "auth"
      { path := "/data", query := "auth", maxTokens := 25000, skipTokens := 0,
        maxResults := 10, filterSet := true, includeMatchDetails := true,
        includeContent := false, filesOnly := false, json := false,
        sessionSet := true, semanticSearch := none, fuzzyMatch := none,
        includeCodeSnippets := none } :=
  generateKey_pure_in_subset "auth" _ _ rfl rfl rfl rfl rfl rfl

/-- `split(/\s+/)` commutes with lowercasing (string level). -/
theorem splitWs_lower (q : String) :
    splitWs (lowerStr q) = (splitWs q).map lowerStr := by
  unfold splitWs lowerStr
  rw [show (String.mk (lowerL q.data)).data = lowerL q.data from rfl]
  rw [show splitWsGo (lowerL q.data) [] =
      splitWsGo (lowerL q.data) (lowerL []) from rfl]
  rw [splitWsGo_lower]
  simp [Function.comp]

/-- Lowercasing preserves string length. -/
theorem length_lowerStr (s : String) : (lowerStr s).length = s.length := by
  show (s.data.map lowerChar).length = s.length
  rw [List.length_map]
  rfl

/-- `any` over a filtered map, folded into one traversal. -/
theorem any_filter_map {α β : Type} (l : List α) (f : α → β)
    (q : β → Bool) (P : β → Bool) :
    (((l.map f).filter q).any P) = l.any (fun t => q (f t) && P (f t)) := by
  induction l with
  | nil => rfl
  | cons a l ih =>
    by_cases hq : q (f a) = true <;>
      simp [List.filter_cons, List.any_cons, hq, ih]

/-- The code's term test (lowercase the query, split, filter by length,
substring-match against the lowercased path) coincides with the spec's
phrasing: some RAW query term of length > 2 occurs case-insensitively in
the path. -/
theorem termMatch_eq (q p : String) :
    (queryTermsOf q).any (fun t => strContains (lowerStr p) t) =
      specTermMatch q p := by
  unfold queryTermsOf specTermMatch
  rw [splitWs_lower]
  rw [any_filter_map (q := fun t => t.length > 2)
    (P := fun t => strContains (lowerStr p) t)]
  congr 1
  funext t
  rw [show decide ((lowerStr t).length > 2) = decide (t.length > 2) from
    decide_eq_decide.mpr (by rw [length_lowerStr])]

/-- C7: `getMatchingPaths` returns the empty list whenever no manifest is
loaded, and otherwise returns exactly the paths of the requested generation
subset — the Gen 1 list for "gen1", the Gen 2 list for "gen2", their
union (concatenation) for "both" — whose text contains at least one query
term of length greater than 2 as a case-insensitive substring
(`specTermMatch`, phrased over the raw query's whitespace-split terms). -/
theorem getMatchingPaths_spec (st : DirState) (q gen : String) :
    (st.directory = none → getMatchingPaths st q gen = []) ∧
    (st.directory.isSome = true →
      (gen = "gen1" →
        getMatchingPaths st q gen = st.gen1Paths.filter (specTermMatch q)) ∧
      (gen = "gen2" →
        getMatchingPaths st q gen = st.gen2Paths.filter (specTermMatch q)) ∧
      (gen = "both" →
        getMatchingPaths st q gen =
          (st.gen1Paths ++ st.gen2Paths).filter (specTermMatch q))) := by
  constructor
  · intro h
    unfold getMatchingPaths
    rw [h]
  · intro h
    obtain ⟨d, hd⟩ := Option.isSome_iff_exists.mp h
    unfold getMatchingPaths
    rw [hd]
    refine ⟨?_, ?_, ?_⟩ <;> intro hg <;> subst hg
    · rw [if_pos rfl]
      exact List.filter_congr (fun p _ => termMatch_eq q p)
    · rw [if_neg (by decide), if_pos rfl]
      exact List.filter_congr (fun p _ => termMatch_eq q p)
    · rw [if_neg (by decide), if_neg (by decide)]
      exact List.filter_congr (fun p _ => termMatch_eq q p)

/-- C7 (witness): the scoping theorem applied to the state loaded from the
sample manifest, with the spec's own example query "create api" against
generation "gen2". -/
theorem getMatchingPaths_spec_witness :
    ((loadDir (some sampleManifest) initDirState).2.directory.isSome = true) ∧
    getMatchingPaths (loadDir (some sampleManifest) initDirState).2
        "create api" "gen2" =
      ((loadDir (some sampleManifest) initDirState).2.gen2Paths).filter
        (specTermMatch "create api") :=
  ⟨rfl, ((getMatchingPaths_spec (loadDir (some sampleManifest)
      initDirState).2 "create api" "gen2").2 rfl).2.1 rfl⟩


/-- The categorisation fold appends exactly the filtered key lists. -/
theorem catFold_eq (l : List (String × PageNode)) (st : DirState) :
    l.foldl
      (fun s e =>
        if isGen1Path e.1 then
          { s with gen1Paths := s.gen1Paths ++ [e.1] }
        else if isGen2Path e.1 then
          { s with gen2Paths := s.gen2Paths ++ [e.1] }
        else s)
      st =
    { st with
      gen1Paths := st.gen1Paths ++ (l.map Prod.fst).filter isGen1Path
      gen2Paths := st.gen2Paths ++ (l.map Prod.fst).filter isGen2Path } := by
  induction l generalizing st with
  | nil => simp
  | cons e l ih =>
    rw [List.foldl_cons]
    by_cases h1 : isGen1Path e.1 = true
    · have h2 : isGen2Path e.1 = false := by
        have h1' : strContains e.1 "gen1/" = true ∨
            strContains e.1 "/gen1/" = true := by
          simpa [isGen1Path] using h1
        rcases h1' with h | h <;> simp [isGen2Path, h]
      rw [if_pos h1, ih]
      simp [List.filter_cons, h1, h2]
    · rw [if_neg h1]
      by_cases h2 : isGen2Path e.1 = true
      · rw [if_pos h2, ih]
        simp [List.filter_cons, h1, h2]
      · rw [if_neg h2, ih]
        simp [List.filter_cons, h1, h2]

/-- `categorizeGenPaths` appends the Gen 1/Gen 2 keys of the flattened map
to the existing lists, leaving every other field unchanged. -/
theorem categorize_eq (st : DirState) :
    categorize st =
    { st with
      gen1Paths :=
        st.gen1Paths ++ (st.flattenedPaths.map Prod.fst).filter isGen1Path
      gen2Paths :=
        st.gen2Paths ++ (st.flattenedPaths.map Prod.fst).filter isGen2Path } :=
  catFold_eq st.flattenedPaths st


/-- The key list after a `Map.set`: unchanged when the key exists,
extended by the key otherwise. -/
theorem keys_mapSet (m : List (String × PageNode)) (k : String)
    (v : PageNode) :
    (mapSet m k v).map Prod.fst =
      if m.any (fun e => e.1 = k) then m.map Prod.fst
      else m.map Prod.fst ++ [k] := by
  unfold mapSet
  split_ifs with h
  · rw [List.map_map]
    apply List.map_congr_left
    intro e _
    by_cases he : e.1 = k <;> simp [he]
  · simp

/-- `Map.set` never removes keys. -/
theorem keys_mapSet_mono (m : List (String × PageNode)) (k k' : String)
    (v : PageNode) (h : k' ∈ m.map Prod.fst) :
    k' ∈ (mapSet m k v).map Prod.fst := by
  rw [keys_mapSet]
  split_ifs
  · exact h
  · exact List.mem_append_left _ h

/-- After `Map.set` the key is present. -/
theorem mem_keys_mapSet_self (m : List (String × PageNode)) (k : String)
    (v : PageNode) : k ∈ (mapSet m k v).map Prod.fst := by
  rw [keys_mapSet]
  split_ifs with h
  · obtain ⟨e, he, hk⟩ := List.any_eq_true.mp h
    have : k = e.1 := (of_decide_eq_true hk).symm
    exact this ▸ List.mem_map_of_mem Prod.fst he
  · exact List.mem_append_right _ (List.mem_singleton_self k)


/-- Flattening a leaf only records it in the flattened map. -/
theorem flattenNode_leaf (st : DirState) (p : String) :
    flattenNode st (leafNode p) [] =
      { st with flattenedPaths := mapSet st.flattenedPaths p (leafNode p) } := by
  rfl

/-- Flattening a list of leaves folds `Map.set` over their paths. -/
theorem flattenChildren_leaves (st : DirState) (ps : List String) :
    flattenChildren st (ps.map leafNode) [] =
      { st with flattenedPaths :=
          ps.foldl (fun m p => mapSet m p (leafNode p)) st.flattenedPaths } := by
  induction ps generalizing st with
  | nil => rfl
  | cons p ps ih =>
    rw [List.map_cons, flattenChildren, flattenNode_leaf, ih]
    simp

/-- Flattening the synthetic root built by `load` records the root and
then each extracted path, and touches nothing else. -/
theorem flattenNode_load (st : DirState) (ps : List String) :
    flattenNode st (.mk rootPath (some (ps.map leafNode)) none) [] =
      { st with flattenedPaths :=
          (ps.foldl (fun m p => mapSet m p (leafNode p))
            (mapSet st.flattenedPaths rootPath
              (.mk rootPath (some (ps.map leafNode)) none))) } := by
  rw [flattenNode]
  simp only [Option.getD_none, List.length_nil, gt_iff_lt, Nat.lt_irrefl,
    if_false]
  rw [flattenChildren_leaves]


/-- The two generation classifications are mutually exclusive: the Gen 2
test requires the absence of a `gen1` segment. -/
theorem isGen1Path_not_gen2 (p : String) (h : isGen1Path p = true) :
    isGen2Path p = false := by
  have h1 : strContains p "gen1/" = true ∨ strContains p "/gen1/" = true := by
    simpa [isGen1Path] using h
  rcases h1 with h1 | h1 <;> simp [isGen2Path, h1]

/-- Folding `Map.set` over a path list never removes keys. -/
theorem foldl_mapSet_keys_mono (ps : List String)
    (m : List (String × PageNode)) (k : String)
    (h : k ∈ m.map Prod.fst) :
    k ∈ (ps.foldl (fun m p => mapSet m p (leafNode p)) m).map Prod.fst := by
  induction ps generalizing m with
  | nil => exact h
  | cons p ps ih =>
    rw [List.foldl_cons]
    exact ih _ (keys_mapSet_mono _ _ _ _ h)

/-- The invariant holds for the fresh manager. -/
theorem dirInv_init : dirInv initDirState := by
  refine ⟨?_, ?_, ?_⟩ <;> intro p hp <;> simp [initDirState] at hp

/-- `load` on present content, as one equation. -/
theorem loadDir_some_eq (c : String) (st : DirState) :
    loadDir (some c) st =
      (if hasDirectoryDecl c = true then
        (true, categorize (flattenNode
          { st with directory := some (PageNode.mk rootPath
              (some ((extractPaths c).map leafNode)) none) }
          (PageNode.mk rootPath (some ((extractPaths c).map leafNode)) none)
          []))
      else (false, st)) := rfl

/-- One `load()` call preserves the generation-list invariant. -/
theorem dirInv_load (c? : Option String) (st : DirState) (h : dirInv st) :
    dirInv (loadDir c? st).2 := by
  obtain ⟨h1, h2, h3⟩ := h
  cases c? with
  | none => exact ⟨h1, h2, h3⟩
  | some c =>
    rw [loadDir_some_eq]
    by_cases hd : hasDirectoryDecl c = true
    · rw [if_pos hd]
      rw [flattenNode_load, categorize_eq]
      refine ⟨?_, ?_, ?_⟩
      · intro p hp
        rcases List.mem_append.mp hp with hp | hp
        · exact h1 p hp
        · exact (List.mem_filter.mp hp).2
      · intro p hp
        rcases List.mem_append.mp hp with hp | hp
        · exact h2 p hp
        · exact (List.mem_filter.mp hp).2
      · intro p hp
        have hker :
            p ∈ st.gen1Paths ∨ p ∈ st.gen2Paths ∨
            p ∈ ((extractPaths c).foldl (fun m q => mapSet m q (leafNode q))
              (mapSet st.flattenedPaths rootPath
                (.mk rootPath (some ((extractPaths c).map leafNode)) none))).map
                Prod.fst := by
          rcases hp with hp | hp
          · rcases List.mem_append.mp hp with hp | hp
            · exact Or.inl hp
            · exact Or.inr (Or.inr (List.mem_of_mem_filter hp))
          · rcases List.mem_append.mp hp with hp | hp
            · exact Or.inr (Or.inl hp)
            · exact Or.inr (Or.inr (List.mem_of_mem_filter hp))
        rcases hker with hp | hp | hp
        · exact foldl_mapSet_keys_mono _ _ _
            (keys_mapSet_mono _ _ _ _ (h3 p (Or.inl hp)))
        · exact foldl_mapSet_keys_mono _ _ _
            (keys_mapSet_mono _ _ _ _ (h3 p (Or.inr hp)))
        · exact hp
    · rw [if_neg hd]
      exact ⟨h1, h2, h3⟩

/-- Any sequence of `load()` calls preserves the invariant. -/
theorem dirInv_foldl (cs : List (Option String)) (st : DirState)
    (h : dirInv st) :
    dirInv (cs.foldl (fun s c => (loadDir c s).2) st) := by
  induction cs generalizing st with
  | nil => exact h
  | cons c cs ih =>
    rw [List.foldl_cons]
    exact ih _ (dirInv_load c st h)

/-- C10: after any sequence of `load()` calls (with arbitrary manifest
contents, including failures), the Gen 1 and Gen 2 path lists are disjoint
— Gen 2 classification requires the absence of a `gen1` segment — and
every path in either list is a key of the flattened path map. -/
theorem genLists_disjoint_and_in_flattened (cs : List (Option String)) :
    (∀ p ∈ (cs.foldl (fun s c => (loadDir c s).2) initDirState).gen1Paths,
       p ∉ (cs.foldl (fun s c => (loadDir c s).2) initDirState).gen2Paths) ∧
    (∀ p, p ∈ (cs.foldl (fun s c => (loadDir c s).2) initDirState).gen1Paths ∨
          p ∈ (cs.foldl (fun s c => (loadDir c s).2) initDirState).gen2Paths →
       p ∈ ((cs.foldl (fun s c => (loadDir c s).2)
          initDirState).flattenedPaths).map Prod.fst) := by
  obtain ⟨h1, h2, h3⟩ := dirInv_foldl cs initDirState dirInv_init
  refine ⟨?_, h3⟩
  intro p hp1 hp2
  have := isGen1Path_not_gen2 p (h1 p hp1)
  rw [h2 p hp2] at this
  exact Bool.noConfusion this


/-- Key membership as the `any` test used by `mapSet`. -/
theorem keys_iff_any (m : List (String × PageNode)) (k : String) :
    k ∈ m.map Prod.fst ↔ m.any (fun e => e.1 = k) = true := by
  rw [List.any_eq_true]
  constructor
  · intro h
    obtain ⟨e, he, hk⟩ := List.mem_map.mp h
    exact ⟨e, he, decide_eq_true hk⟩
  · rintro ⟨e, he, hk⟩
    exact (of_decide_eq_true hk) ▸ List.mem_map_of_mem Prod.fst he

/-- `Map.set` is the identity when the key is present with the same
value. -/
theorem mapSet_self (m : List (String × PageNode)) (k : String)
    (v : PageNode) (h1 : ∀ e ∈ m, e.1 = k → e.2 = v)
    (h2 : k ∈ m.map Prod.fst) : mapSet m k v = m := by
  unfold mapSet
  rw [if_pos ((keys_iff_any m k).mp h2)]
  conv_rhs => rw [show m = m.map id from (List.map_id m).symm]
  apply List.map_congr_left
  intro e he
  by_cases hk : e.1 = k
  · have := h1 e he hk
    simp [hk, this.symm]
    exact Prod.ext hk.symm rfl
  · simp [hk]

/-- Value-determinedness is preserved by inserting a canonical value. -/
theorem detBy_mapSet (m : List (String × PageNode)) (f : String → PageNode)
    (k : String) (v : PageNode) (hm : detBy m f) (hv : v = f k) :
    detBy (mapSet m k v) f := by
  unfold mapSet
  split_ifs with h
  · intro e he
    obtain ⟨e₀, he₀, heq⟩ := List.mem_map.mp he
    by_cases hk : e₀.1 = k
    · rw [if_pos hk] at heq
      rw [← heq]
      exact hv
    · rw [if_neg hk] at heq
      rw [← heq]
      exact hm e₀ he₀
  · intro e he
    rcases List.mem_append.mp he with he | he
    · exact hm e he
    · rw [List.mem_singleton.mp he]
      exact hv

/-- Value-determinedness is preserved by inserting a list of leaves. -/
theorem detBy_foldl (ps : List String) (m : List (String × PageNode))
    (f : String → PageNode) (hm : detBy m f)
    (hp : ∀ p ∈ ps, leafNode p = f p) :
    detBy (ps.foldl (fun m p => mapSet m p (leafNode p)) m) f := by
  induction ps generalizing m with
  | nil => exact hm
  | cons p ps ih =>
    rw [List.foldl_cons]
    exact ih _ (detBy_mapSet m f p _ hm (hp p (List.mem_cons_self p ps)))
      (fun q hq => hp q (List.mem_cons_of_mem p hq))

/-- Every inserted path ends up among the keys. -/
theorem foldl_mapSet_keys_all (ps : List String)
    (m : List (String × PageNode)) (p : String) (hp : p ∈ ps) :
    p ∈ (ps.foldl (fun m q => mapSet m q (leafNode q)) m).map Prod.fst := by
  induction ps generalizing m with
  | nil => exact absurd hp (List.not_mem_nil p)
  | cons q ps ih =>
    rw [List.foldl_cons]
    rcases List.mem_cons.mp hp with h | h
    · subst h
      exact foldl_mapSet_keys_mono ps _ p (mem_keys_mapSet_self m p _)
    · exact ih _ h

/-- Re-inserting canonical values whose keys are already present leaves
the map unchanged. -/
theorem insert_again (ps : List String) (m : List (String × PageNode))
    (f : String → PageNode) (hm : detBy m f)
    (hleaf : ∀ p ∈ ps, leafNode p = f p)
    (hkeys : ∀ p ∈ ps, p ∈ m.map Prod.fst) :
    ps.foldl (fun m q => mapSet m q (leafNode q)) m = m := by
  induction ps with
  | nil => rfl
  | cons p ps ih =>
    rw [List.foldl_cons]
    have hset : mapSet m p (leafNode p) = m := by
      apply mapSet_self
      · intro e he hk
        rw [hm e he, hk, ← hleaf p (List.mem_cons_self p ps)]
      · exact hkeys p (List.mem_cons_self p ps)
    rw [hset]
    exact ih (fun q hq => hleaf q (List.mem_cons_of_mem p hq))
      (fun q hq => hkeys q (List.mem_cons_of_mem p hq))


/-- C6 (amended): `load()` never clears the previously built structures.
The flattened path map is keyed by path, so re-loading the same manifest
leaves it — and the stored directory — unchanged (provided the synthetic
root path is not itself an extracted path), but the generation lists are
appended to rather than replaced: loading the same manifest twice leaves
each generation list equal to the single-load list concatenated with
itself. -/
theorem load_twice_appends_gen_lists (c : String) (hdecl : hasDirectoryDecl c = true)
    (hroot : rootPath ∉ extractPaths c) :
    ((loadDir (some c) (loadDir (some c) initDirState).2).2.flattenedPaths =
       (loadDir (some c) initDirState).2.flattenedPaths) ∧
    ((loadDir (some c) (loadDir (some c) initDirState).2).2.directory =
       (loadDir (some c) initDirState).2.directory) ∧
    ((loadDir (some c) (loadDir (some c) initDirState).2).2.gen1Paths =
       (loadDir (some c) initDirState).2.gen1Paths ++
       (loadDir (some c) initDirState).2.gen1Paths) ∧
    ((loadDir (some c) (loadDir (some c) initDirState).2).2.gen2Paths =
       (loadDir (some c) initDirState).2.gen2Paths ++
       (loadDir (some c) initDirState).2.gen2Paths) := by
  have hleaf : ∀ p ∈ extractPaths c,
      leafNode p = (fun k => if k = rootPath
        then PageNode.mk rootPath (some ((extractPaths c).map leafNode)) none
        else leafNode k) p := by
    intro p hp
    show leafNode p = if p = rootPath
      then PageNode.mk rootPath (some ((extractPaths c).map leafNode)) none
      else leafNode p
    rw [if_neg (fun h : p = rootPath => hroot (by rw [← h]; exact hp))]
  have hdet1 : detBy
      ((extractPaths c).foldl (fun m q => mapSet m q (leafNode q))
        (mapSet [] rootPath (PageNode.mk rootPath
          (some ((extractPaths c).map leafNode)) none)))
      (fun k => if k = rootPath
        then PageNode.mk rootPath (some ((extractPaths c).map leafNode)) none
        else leafNode k) := by
    apply detBy_foldl _ _ _ _ hleaf
    apply detBy_mapSet
    · intro e he
      exact absurd he (List.not_mem_nil e)
    · rw [if_pos rfl]
  have hkeyroot : rootPath ∈
      ((extractPaths c).foldl (fun m q => mapSet m q (leafNode q))
        (mapSet [] rootPath (PageNode.mk rootPath
          (some ((extractPaths c).map leafNode)) none))).map Prod.fst :=
    foldl_mapSet_keys_mono _ _ _ (mem_keys_mapSet_self _ _ _)
  have hkeyps : ∀ p ∈ extractPaths c, p ∈
      ((extractPaths c).foldl (fun m q => mapSet m q (leafNode q))
        (mapSet [] rootPath (PageNode.mk rootPath
          (some ((extractPaths c).map leafNode)) none))).map Prod.fst :=
    fun p hp => foldl_mapSet_keys_all _ _ p hp
  have hreset : mapSet
      ((extractPaths c).foldl (fun m q => mapSet m q (leafNode q))
        (mapSet [] rootPath (PageNode.mk rootPath
          (some ((extractPaths c).map leafNode)) none)))
      rootPath
      (PageNode.mk rootPath (some ((extractPaths c).map leafNode)) none) =
      ((extractPaths c).foldl (fun m q => mapSet m q (leafNode q))
        (mapSet [] rootPath (PageNode.mk rootPath
          (some ((extractPaths c).map leafNode)) none))) := by
    apply mapSet_self _ _ _ _ hkeyroot
    intro e he hk
    rw [hdet1 e he, hk]
    simp
  have hF : ((extractPaths c).foldl (fun m q => mapSet m q (leafNode q))
      (mapSet
        ((extractPaths c).foldl (fun m q => mapSet m q (leafNode q))
          (mapSet [] rootPath (PageNode.mk rootPath
            (some ((extractPaths c).map leafNode)) none)))
        rootPath
        (PageNode.mk rootPath (some ((extractPaths c).map leafNode)) none))) =
      ((extractPaths c).foldl (fun m q => mapSet m q (leafNode q))
        (mapSet [] rootPath (PageNode.mk rootPath
          (some ((extractPaths c).map leafNode)) none))) := by
    rw [hreset]
    exact insert_again _ _ _ hdet1 hleaf hkeyps
  rw [loadDir_some_eq, if_pos hdecl, flattenNode_load, categorize_eq]
  rw [loadDir_some_eq, if_pos hdecl, flattenNode_load, categorize_eq]
  simp only [initDirState]
  rw [hF]
  simp


/-- C10 (witness): the invariant theorem applied to one load of the sample
manifest: its Gen 1 path is not in the Gen 2 list and is a key of the
flattened map. -/
theorem genLists_disjoint_witness :
    ("a/gen1/create-api" ∉ (([some sampleManifest] : List (Option String)).foldl
        (fun s c => (loadDir c s).2) initDirState).gen2Paths) ∧
    ("a/gen1/create-api" ∈ ((([some sampleManifest] : List (Option String)).foldl
        (fun s c => (loadDir c s).2) initDirState).flattenedPaths).map
        Prod.fst) :=
  ⟨(genLists_disjoint_and_in_flattened [some sampleManifest]).1 _ (by decide),
   (genLists_disjoint_and_in_flattened [some sampleManifest]).2 _
     (Or.inl (by decide))⟩

/-- C6 (counterexample): invoking `load()` twice on the same manifest does
NOT leave the generation lists with the same contents as invoking it once:
on the sample manifest the Gen 1 list holds its single entry twice after
the second call (`categorizeGenPaths` appends without clearing). -/
theorem load_twice_duplicates_gen1 :
    (loadDir (some sampleManifest)
        (loadDir (some sampleManifest) initDirState).2).2.gen1Paths =
      ["a/gen1/create-api", "a/gen1/create-api"] ∧
    (loadDir (some sampleManifest) initDirState).2.gen1Paths =
      ["a/gen1/create-api"] := by
  constructor <;> rfl

/-- C6 (witness): the amended theorem applied to the sample manifest. -/
theorem load_twice_appends_witness :
    (hasDirectoryDecl sampleManifest = true ∧
     rootPath ∉ extractPaths sampleManifest) ∧
    (loadDir (some sampleManifest)
        (loadDir (some sampleManifest) initDirState).2).2.gen1Paths =
      (loadDir (some sampleManifest) initDirState).2.gen1Paths ++
      (loadDir (some sampleManifest) initDirState).2.gen1Paths :=
  ⟨⟨rfl, by decide⟩,
   (load_twice_appends_gen_lists sampleManifest rfl (by decide)).2.2.1⟩


/-- `setupWithGit` always resolves normally: its entire body sits in a
try-block whose catch only logs (src/git.ts lines 255-259). -/
theorem setupWithGitM_ok (env : SyncEnv) (u : Bool) :
    setupWithGitM env u = .ok () := by
  unfold setupWithGitM
  cases env.gitBody u <;> rfl

/-- C4 (counterexample): `setupGitRepo` DOES throw across its own boundary.
With the snapshot strategy selected (refresh disabled) and a full disk —
the download rejects with an exhausted-storage message and the placeholder
write itself rejects — the error propagates out of `setupWithTarball`, and
`setupGitRepo`'s catch logs and rethrows it (src/git.ts line 37), so the
call rejects instead of resolving normally. -/
theorem setupGitRepo_throws_on_full_disk :
    (setupGitRepoM sampleSyncConfig syncEnvDiskFull false).1 =
      .error "ENOSPC" := rfl

/-- The tarball catch handler resolves normally whenever the placeholder
write does (the git-clone fallback swallows its own errors). -/
theorem tarballRecover_ok_of_placeholder (cfg : SyncConfig) (env : SyncEnv)
    (e : String) (hpl : env.placeholderWrite = .ok ()) :
    (tarballRecover cfg env e).1 = .ok () := by
  unfold tarballRecover
  split_ifs with h404 hspace
  · cases hm : env.download "master"
    · rw [setupWithGitM_ok]
    · rfl
  · exact hpl
  · rw [setupWithGitM_ok]

/-- C4 (amended): `setupGitRepo` logs and RETHROWS errors reaching its own
catch rather than always resolving normally; however the only error that
can cross its boundary is a failure of the placeholder write inside the
tarball strategy's recovery paths (the git-clone strategy swallows all of
its errors internally), so whenever the placeholder write resolves,
`setupGitRepo` resolves normally for every configuration and both values of
the isRefresh/isUpdate flag. -/
theorem setupGitRepo_resolves_of_placeholder_ok (cfg : SyncConfig)
    (env : SyncEnv) (u : Bool) (hpl : env.placeholderWrite = .ok ()) :
    (setupGitRepoM cfg env u).1 = .ok () := by
  unfold setupGitRepoM
  split_ifs with h1 h2
  · rfl
  · simp [setupWithGitM_ok]
  · unfold setupWithTarballM
    split_ifs with hgh
    · simp [setupWithGitM_ok]
    · cases hd : env.download (tarballRef cfg)
      · exact tarballRecover_ok_of_placeholder cfg env _ hpl
      · rfl

/-- C4 (witness): the amended theorem applied to the sample configuration
in an environment whose placeholder write succeeds (a 404 on `main`
followed by a successful `master` download). -/
theorem setupGitRepo_resolves_witness :
    syncEnv404.placeholderWrite = .ok () ∧
    (setupGitRepoM sampleSyncConfig syncEnv404 false).1 = .ok () :=
  ⟨rfl, setupGitRepo_resolves_of_placeholder_ok sampleSyncConfig syncEnv404
     false rfl⟩

/-- C5 (counterexample): on detecting an exhausted-storage error the
snapshot strategy does NOT fall back to the incremental (git clone)
strategy before synthesizing the placeholder: the trace of the full-disk
run shows a single download attempt of `main`, NO clone fallback, and the
placeholder written immediately. -/
theorem tarball_disk_full_skips_clone_fallback :
    (setupGitRepoM sampleSyncConfig syncEnvDiskFull false).2 =
      { downloads := ["main"], cloneFallback := false,
        placeholderWritten := true } := by decide

/-- C5 (amended): in the snapshot (tarball) strategy with a GitHub source
and ref `main`: a 404 on `main` triggers exactly one retry against
`master`; if the retry also fails the strategy falls back to git clone
WITHOUT synthesizing a placeholder (the clone swallows its own failures, so
the placeholder branch guarding it is unreachable and the call resolves
normally); an exhausted-storage error synthesizes the placeholder document
immediately WITHOUT attempting the clone fallback; any other download error
falls back to git clone, again without a placeholder. -/
theorem tarball_fallback_chain (cfg : SyncConfig) (env : SyncEnv)
    (hurl : githubUrlMatches cfg.gitUrl = true) (href : cfg.gitRef = "main") :
    (∀ e, env.download "main" = .error e →
       strContains e "Status: 404" = true →
       (setupWithTarballM cfg env).2.downloads = ["main", "master"] ∧
       (∀ e₂, env.download "master" = .error e₂ →
          (setupWithTarballM cfg env).2.cloneFallback = true ∧
          (setupWithTarballM cfg env).2.placeholderWritten = false ∧
          (setupWithTarballM cfg env).1 = .ok ())) ∧
    (∀ e, env.download "main" = .error e →
       strContains e "Status: 404" = false →
       strContains (lowerStr e) "no space left on device" = true →
       (setupWithTarballM cfg env).2.cloneFallback = false ∧
       (setupWithTarballM cfg env).2.placeholderWritten = true ∧
       (setupWithTarballM cfg env).1 = env.placeholderWrite) ∧
    (∀ e, env.download "main" = .error e →
       strContains e "Status: 404" = false →
       strContains (lowerStr e) "no space left on device" = false →
       (setupWithTarballM cfg env).2.cloneFallback = true ∧
       (setupWithTarballM cfg env).2.placeholderWritten = false ∧
       (setupWithTarballM cfg env).1 = .ok ()) := by
  have hr : tarballRef cfg = "main" := by simp [tarballRef, href]
  refine ⟨?_, ?_, ?_⟩
  · intro e he h404
    constructor
    · simp only [setupWithTarballM, tarballRecover, hurl, hr, he, h404,
        Bool.not_true, Bool.false_eq_true, if_false, decide_eq_true_eq]
      cases hm : env.download "master" <;> simp
    · intro e₂ hm
      simp [setupWithTarballM, tarballRecover, hurl, hr, he, h404, hm,
        setupWithGitM_ok]
  · intro e he h404 hspace
    simp [setupWithTarballM, tarballRecover, hurl, hr, he, h404, hspace]
  · intro e he h404 hspace
    simp [setupWithTarballM, tarballRecover, hurl, hr, he, h404, hspace,
      setupWithGitM_ok]

/-- C5 (witness): the fallback-chain theorem at the sample configuration in
the 404 environment — both refs are attempted, in order. -/
theorem tarball_fallback_chain_witness :
    githubUrlMatches sampleSyncConfig.gitUrl = true ∧
    (setupWithTarballM sampleSyncConfig syncEnv404).2.downloads =
      ["main", "master"] := by
  have h := tarball_fallback_chain sampleSyncConfig syncEnv404
    (by decide) rfl
  exact ⟨by decide, (h.1 _ rfl (by decide)).1⟩

/-- C3 (counterexample): when content snippets are requested
(`includeContent = true`) the cache is NOT bypassed entirely: the lookup is
skipped, but after a successful matcher call the result IS stored in the
cache (src/index.ts line 740 runs unconditionally on the success path). -/
theorem cache_stored_despite_includeContent :
    (executeDocsSearch
      { sampleEnv with matcher := fun _ => .ok "R" }
      { sampleArgs with includeContent := true }).cacheStored = true := rfl

/-- C3 (amended): for every invocation that is not resolved early by the
full-content branch or the session-heading pre-pass: when content snippets
are requested the cache is not consulted before the matcher call but it is
still populated after a successful call; when they are not requested the
cache is consulted first, a hit short-circuits the matcher without a store,
and a miss followed by a successful matcher call populates the cache. -/
theorem executeDocsSearch_cache_interaction (env : OrchestratorEnv)
    (args : Args)
    (h1 : ¬(args.fullContent = true ∧ args.filePath ≠ ""))
    (h2 : headingEarlyReturn env args = none) :
    (args.includeContent = true →
       (executeDocsSearch env args).cacheChecked = false ∧
       (∀ r, env.matcher (builtOptions env args) = .ok r →
          (executeDocsSearch env args).cacheStored = true)) ∧
    (args.includeContent = false →
       (executeDocsSearch env args).cacheChecked = true ∧
       (∀ c, env.cacheLookup (generateKeyObj (processAdvancedQuery args.query)
               (builtOptions env args)) = some c →
          (executeDocsSearch env args).matcherInvoked = false ∧
          (executeDocsSearch env args).cacheStored = false) ∧
       (env.cacheLookup (generateKeyObj (processAdvancedQuery args.query)
           (builtOptions env args)) = none →
        ∀ r, env.matcher (builtOptions env args) = .ok r →
          (executeDocsSearch env args).matcherInvoked = true ∧
          (executeDocsSearch env args).cacheStored = true)) := by
  have hff : (args.fullContent && args.filePath ≠ "") = false := by
    cases hfc : args.fullContent <;> simp_all
  constructor
  · intro hic
    unfold executeDocsSearch
    rw [hff]
    simp only [Bool.false_eq_true, if_false, h2]
    rw [hic]
    constructor
    · cases hm : env.matcher (builtOptions env args) <;> simp
    · intro r hr
      rw [hr]
      simp
  · intro hic
    unfold executeDocsSearch
    rw [hff]
    simp only [Bool.false_eq_true, if_false, h2]
    rw [hic]
    refine ⟨?_, ?_, ?_⟩
    · cases hc : env.cacheLookup (generateKeyObj
          (processAdvancedQuery args.query) (builtOptions env args))
      · simp only [hc]
        cases hm : env.matcher (builtOptions env args) <;> simp
      · simp [hc]
    · intro c hc
      rw [hc]
      exact ⟨rfl, rfl⟩
    · intro hc r hr
      rw [hc, hr]
      exact ⟨rfl, rfl⟩

/-- C3 (witness): the cache-interaction theorem applied to the sample
environment — no content requested, cache miss, successful matcher call:
the cache is consulted and then populated. -/
theorem executeDocsSearch_cache_interaction_witness :
    (executeDocsSearch sampleEnv sampleArgs).cacheChecked = true ∧
    (executeDocsSearch sampleEnv sampleArgs).matcherInvoked = true ∧
    (executeDocsSearch sampleEnv sampleArgs).cacheStored = true := by
  have h := executeDocsSearch_cache_interaction sampleEnv sampleArgs
    (by decide) rfl
  have h2 := (h.2 rfl).2.2 rfl "R" rfl
  exact ⟨(h.2 rfl).1, h2.1, h2.2⟩

/-- C9: with `fullContent = true` and a nonempty `filePath`,
`executeDocsSearch` returns early: the cache is neither consulted nor
populated, the external matcher is never invoked, the result is exactly the
"File not found" message, the fenced verbatim file content, or the
read-error message, and the behaviour is independent of the corpus root
(`dataDir`) — the path is not constrained to lie under it. -/
theorem executeDocsSearch_fullContent_early (env : OrchestratorEnv)
    (args : Args) (h1 : args.fullContent = true) (h2 : args.filePath ≠ "") :
    (executeDocsSearch env args).cacheChecked = false ∧
    (executeDocsSearch env args).matcherInvoked = false ∧
    (executeDocsSearch env args).cacheStored = false ∧
    ((env.fileExists args.filePath = false ∧
      (executeDocsSearch env args).result = "File not found: " ++ args.filePath) ∨
     (∃ c, env.readFile args.filePath = .ok c ∧
      (executeDocsSearch env args).result =
        "Full content of file: " ++ args.filePath ++ "\n\n" ++
          "```\n" ++ c ++ "\n```\n") ∨
     (∃ e, env.readFile args.filePath = .error e ∧
      (executeDocsSearch env args).result =
        "Error reading file " ++ args.filePath ++ ": " ++ e)) ∧
    (∀ d, executeDocsSearch { env with dataDir := d } args =
          executeDocsSearch env args) := by
  have hff : (args.fullContent && args.filePath ≠ "") = true := by
    simp [h1, h2]
  have hdd : ∀ d, executeDocsSearch { env with dataDir := d } args =
      executeDocsSearch env args := by
    intro d
    unfold executeDocsSearch
    rw [hff]
    rfl
  have hmain : (executeDocsSearch env args).cacheChecked = false ∧
      (executeDocsSearch env args).matcherInvoked = false ∧
      (executeDocsSearch env args).cacheStored = false ∧
      ((env.fileExists args.filePath = false ∧
        (executeDocsSearch env args).result = "File not found: " ++ args.filePath) ∨
       (∃ c, env.readFile args.filePath = .ok c ∧
        (executeDocsSearch env args).result =
          "Full content of file: " ++ args.filePath ++ "\n\n" ++
            "```\n" ++ c ++ "\n```\n") ∨
       (∃ e, env.readFile args.filePath = .error e ∧
        (executeDocsSearch env args).result =
          "Error reading file " ++ args.filePath ++ ": " ++ e)) := by
    unfold executeDocsSearch
    rw [hff]
    cases hex : env.fileExists args.filePath
    · exact ⟨rfl, rfl, rfl, .inl ⟨rfl, rfl⟩⟩
    · cases hr : env.readFile args.filePath
      · exact ⟨rfl, rfl, rfl, .inr (.inr ⟨_, rfl, rfl⟩)⟩
      · exact ⟨rfl, rfl, rfl, .inr (.inl ⟨_, rfl, rfl⟩)⟩
  exact ⟨hmain.1, hmain.2.1, hmain.2.2.1, hmain.2.2.2, hdd⟩

/-- C9 (witness): the early-return theorem applied to a request for
"/etc/hostname", a path outside the corpus root "/data" of the sample
environment. -/
theorem executeDocsSearch_fullContent_early_witness :
    (executeDocsSearch sampleEnv
      { sampleArgs with fullContent := true, filePath := "/etc/hostname"
      }).matcherInvoked = false ∧
    (executeDocsSearch sampleEnv
      { sampleArgs with fullContent := true, filePath := "/etc/hostname"
      }).cacheChecked = false ∧
    (executeDocsSearch sampleEnv
      { sampleArgs with fullContent := true, filePath := "/etc/hostname"
      }).cacheStored = false := by
  have h := executeDocsSearch_fullContent_early sampleEnv
    { sampleArgs with fullContent := true, filePath := "/etc/hostname" }
    rfl (by decide)
  exact ⟨h.2.1, h.1, h.2.2.1⟩

/-- C1 (counterexample): the ranking comparator is NOT a strict total
pre-order.  With query "zzzz" and configured generation "both":
(i) for the candidate paths "backend-cli" and "backend-clix" — both
classified simultaneously as Gen 1 (substring "cli") and Gen 2 (substring
"backend") — the comparator prefers each over the other
(`compare(a,b) = compare(b,a) = -1`, so `compare(a,b) ≠ -compare(b,a)`
although it discriminates); and (ii) it is not transitive: "/gen1/x" (10
matches) is preferred to "/docs/x" (5), "/docs/x" to "/gen2/x" (1), yet
"/gen2/x" is preferred to "/gen1/x". -/
theorem rankingFunction_not_strict_preorder :
    (rankingFunction "zzzz" "both" ⟨"backend-cli", 0⟩ ⟨"backend-clix", 0⟩ = -1 ∧
     rankingFunction "zzzz" "both" ⟨"backend-clix", 0⟩ ⟨"backend-cli", 0⟩ = -1) ∧
    (rankingFunction "zzzz" "both" ⟨"/gen1/x", 10⟩ ⟨"/docs/x", 5⟩ < 0 ∧
     rankingFunction "zzzz" "both" ⟨"/docs/x", 5⟩ ⟨"/gen2/x", 1⟩ < 0 ∧
     0 < rankingFunction "zzzz" "both" ⟨"/gen1/x", 10⟩ ⟨"/gen2/x", 1⟩) := by
  decide

/-- C1 (amended): for every fixed query and configured generation the
comparator is deterministic — it is a pure function of the query, the
configuration and the two candidate records, as the embedding
`rankingFunction` makes explicit — and it is antisymmetric
(`compare(a,b) = -compare(b,a)`) whenever the two candidates are not both
simultaneously classified as Gen 1 and Gen 2 documentation by the
comparator's own path predicates.  It is not transitive in general (see the
counterexample). -/
theorem rankingFunction_antisymm_of_not_both_dual (q cfg : String)
    (a b : Candidate)
    (h : ¬((isGen1Doc a.path = true ∧ isGen2Doc a.path = true) ∧
           (isGen1Doc b.path = true ∧ isGen2Doc b.path = true))) :
    rankingFunction q cfg a b = -rankingFunction q cfg b a :=
  rankCompare_neg _ _ _ _ _
    (fun hc => h ⟨⟨hc.1, hc.2.1⟩, ⟨hc.2.2.1, hc.2.2.2⟩⟩)

/-- C1 (witness): the antisymmetry theorem applied to the concrete
candidates "/gen1/x" and "/docs/x" under query "zzzz". -/
theorem rankingFunction_antisymm_witness :
    (¬((isGen1Doc "/gen1/x" = true ∧ isGen2Doc "/gen1/x" = true) ∧
       (isGen1Doc "/docs/x" = true ∧ isGen2Doc "/docs/x" = true))) ∧
    rankingFunction "zzzz" "both" ⟨"/gen1/x", 10⟩ ⟨"/docs/x", 5⟩ =
      -rankingFunction "zzzz" "both" ⟨"/docs/x", 5⟩ ⟨"/gen1/x", 10⟩ :=
  ⟨by decide,
   rankingFunction_antisymm_of_not_both_dual "zzzz" "both"
     ⟨"/gen1/x", 10⟩ ⟨"/docs/x", 5⟩ (by decide)⟩

end AmplifyDocs
namespace AmplifyDocs

theorem takeWhile_append_stop {α : Type} (p : α → Bool) (l l' : List α)
    (h : (l.takeWhile p).length < l.length) :
    (l ++ l').takeWhile p = l.takeWhile p := by
  induction l with
  | nil => simp at h
  | cons c t ih =>
    by_cases hc : p c = true
    · simp only [List.cons_append, List.takeWhile_cons, hc, if_true]
      rw [ih]
      simp only [List.takeWhile_cons, hc, if_true, List.length_cons] at h
      omega
    · simp only [List.cons_append, List.takeWhile_cons, hc]
      simp [hc]

theorem dropWhile_append_of_ne_nil {α : Type} (p : α → Bool) (l l' : List α)
    (h : l.dropWhile p ≠ []) :
    (l ++ l').dropWhile p = l.dropWhile p ++ l' := by
  induction l with
  | nil => simp at h
  | cons c t ih =>
    by_cases hc : p c = true
    · simp only [List.cons_append, List.dropWhile_cons, hc, if_true]
      apply ih
      simpa [List.dropWhile_cons, hc] using h
    · simp [List.dropWhile_cons, hc]

theorem trimL_cons_ws (a : Char) (ha : wsChar a = true) (X : List Char) :
    trimL (a :: X) = trimL X := by
  unfold trimL
  rw [List.dropWhile_cons_of_pos ha]

theorem trimL_append_ws (a : Char) (ha : wsChar a = true) (X : List Char) :
    trimL (X ++ [a]) = trimL X := by
  unfold trimL
  by_cases h : X.dropWhile (fun c => wsChar c) = []
  · rw [h]
    have hall : ∀ c ∈ X, wsChar c = true := List.dropWhile_eq_nil_iff.mp h
    have h2 : (X ++ [a]).dropWhile (fun c => wsChar c) = [] := by
      rw [List.dropWhile_eq_nil_iff]
      intro c hc
      rcases List.mem_append.mp hc with hc | hc
      · exact hall c hc
      · rw [List.mem_singleton.mp hc]
        exact ha
    rw [h2]
  · rw [dropWhile_append_of_ne_nil _ _ _ h]
    rw [List.reverse_append]
    rw [show ([a] : List Char).reverse = [a] from rfl]
    rw [show ([a] : List Char) ++ (X.dropWhile (fun c => wsChar c)).reverse =
      a :: (X.dropWhile (fun c => wsChar c)).reverse from rfl]
    rw [List.dropWhile_cons_of_pos ha]

end AmplifyDocs
namespace AmplifyDocs

theorem hmatchAt_of_parse (line : List Char) (lvl : Nat) (text : List Char)
    (hp : lineHeadingParse line = some (lvl, text))
    (hnl : '\n' ∉ line) (hnr : '\r' ∉ line)
    (rest' : List Char) (hrest : rest' = [] ∨ ∃ r, rest' = '\n' :: r) :
    hmatchAt (line ++ rest') = some (lvl, text, rest') := by
  simp only [lineHeadingParse] at hp
  split_ifs at hp with h1 h2
  rw [Option.some.injEq, Prod.mk.injEq] at hp
  obtain ⟨hlvl, htext⟩ := hp
  -- abbreviations
  have hH6 := h1.2
  have hH1 := h1.1
  have hW1 := h2.1
  have hTne := h2.2
  -- the whitespace run inside the post-hash part stops strictly inside it
  have hWlt : ((line.drop ((line.takeWhile (fun c => c = '#')).length)).takeWhile
      (fun c => wsChar c)).length <
      (line.drop ((line.takeWhile (fun c => c = '#')).length)).length := by
    by_contra hcon
    push_neg at hcon
    have := List.drop_eq_nil_iff.mpr hcon
    exact hTne this
  -- the hash run stops strictly inside the line
  have hHlt : (line.takeWhile (fun c => c = '#')).length < line.length := by
    have h5 : (line.takeWhile (fun c => c = '#')).length ≤ line.length :=
      (List.takeWhile_sublist _).length_le
    have h6 := List.length_drop ((line.takeWhile (fun c => c = '#')).length) line
    omega
  have hHne : line.takeWhile (fun c => c = '#') ≠ line := by
    intro hcon
    rw [hcon] at hHlt
    omega
  have hHstop : ((line ++ rest').takeWhile (fun c => c = '#')).length =
      (line.takeWhile (fun c => c = '#')).length := by
    rw [takeWhile_append_stop _ _ _ ?_]
    by_contra hcon
    push_neg at hcon
    have hle : (line.takeWhile (fun c => c = '#')).length ≤ line.length :=
      (List.takeWhile_sublist _).length_le
    have heq : (line.takeWhile (fun c => c = '#')).length = line.length := by omega
    exact hHne ((List.takeWhile_sublist _).eq_of_length heq)
  unfold hmatchAt
  rw [hHstop]
  rw [if_pos h1]
  rw [List.drop_append_of_le_length (le_of_lt hHlt)]
  -- now reduce hmatchAux on (line.drop H ++ rest')
  have hWstop : (line.drop ((line.takeWhile (fun c => c = '#')).length) ++
      rest').takeWhile (fun c => wsChar c) =
      (line.drop ((line.takeWhile (fun c => c = '#')).length)).takeWhile
        (fun c => wsChar c) :=
    takeWhile_append_stop _ _ _ hWlt
  unfold hmatchAux
  rw [hWstop]
  rw [if_neg (by omega)]
  rw [List.drop_append_of_le_length (le_of_lt hWlt)]
  rw [htext]
  -- all characters of text are non-terminators
  have hpos : ∀ c ∈ text, (fun c => !(lineTerm c)) c = true := by
    intro c hc
    have hcl : c ∈ line := by
      rw [← htext] at hc
      exact List.mem_of_mem_drop (List.mem_of_mem_drop hc)
    simp only [lineTerm, Bool.not_eq_true']
    rw [Bool.or_eq_false_iff]
    constructor
    · rw [decide_eq_false_iff_not]
      intro hcon
      rw [hcon] at hcl
      exact hnl hcl
    · rw [decide_eq_false_iff_not]
      intro hcon
      rw [hcon] at hcl
      exact hnr hcl
  have htwText : (text ++ rest').takeWhile (fun c => !(lineTerm c)) = text := by
    rw [List.takeWhile_append_of_pos hpos]
    rcases hrest with hr | ⟨r, hr⟩
    · rw [hr]
      simp
    · rw [hr]
      rw [List.takeWhile_cons_of_neg (by simp [lineTerm])]
      simp
  have hkey : ∀ u : List Char, u = text ++ rest' →
      (match u with
       | [] =>
         match (line.drop ((line.takeWhile (fun c => c = '#')).length) ++
             rest').reverse.dropWhile (fun c => lineTerm c) with
         | [] => none
         | c :: cs =>
           if cs = [] then none
           else some ((line.takeWhile (fun c => c = '#')).length, [c],
             ((line.drop ((line.takeWhile (fun c => c = '#')).length) ++
               rest').reverse.takeWhile (fun c => lineTerm c)).reverse)
       | d :: ds =>
         some ((line.takeWhile (fun c => c = '#')).length,
           (d :: ds).takeWhile (fun c => !(lineTerm c)),
           (d :: ds).drop (((d :: ds).takeWhile (fun c => !(lineTerm c))).length))) =
      some ((line.takeWhile (fun c => c = '#')).length, text, rest') := by
    intro u hu
    rcases hu2 : u with _ | ⟨d2, t2⟩
    · rw [hu2] at hu
      have h0 := List.append_eq_nil.mp hu.symm
      exact absurd (htext.trans h0.1) hTne
    · rw [hu2] at hu
      dsimp only
      rw [show (d2 :: t2).takeWhile (fun c => !(lineTerm c)) =
          (text ++ rest').takeWhile (fun c => !(lineTerm c)) from by rw [← hu]]
      rw [htwText]
      rw [show (d2 :: t2) = text ++ rest' from hu]
      rw [List.drop_left]
  rw [← hlvl]
  exact hkey _ rfl
theorem hmatchAt_nil : hmatchAt [] = none := rfl

theorem hmatchAt_not_hash (c : Char) (hc : ¬(c = '#')) (t : List Char) :
    hmatchAt (c :: t) = none := by
  unfold hmatchAt
  rw [List.takeWhile_cons_of_neg (by simpa using hc)]
  simp

theorem scanHs_nil (b : Bool) : scanHs [] b = [] := by
  rw [scanHs]

theorem scanHs_cons_false (c : Char) (t : List Char) :
    scanHs (c :: t) false = scanHs t (lineTerm c) := by
  rw [scanHs]
  rw [if_neg (by simp)]

theorem scanHs_cons_true_none (c : Char) (t : List Char)
    (h : hmatchAt (c :: t) = none) :
    scanHs (c :: t) true = scanHs t (lineTerm c) := by
  rw [scanHs]
  simp only [if_true]
  split
  · rename_i lvl raw rest hm
    rw [h] at hm
    exact absurd hm (by simp)
  · rfl

theorem scanHs_cons_true_some (c : Char) (t : List Char)
    (lvl : Nat) (raw rest : List Char)
    (h : hmatchAt (c :: t) = some (lvl, raw, rest)) :
    scanHs (c :: t) true = (lvl, raw, rest) :: scanHs rest false := by
  rw [scanHs]
  simp only [if_true]
  split
  · rename_i lvl2 raw2 rest2 hm
    rw [h] at hm
    have := Option.some.inj hm
    rw [show lvl2 = lvl from (congrArg (fun x => x.1) this).symm,
      show raw2 = raw from (congrArg (fun x => x.2.1) this).symm,
      show rest2 = rest from (congrArg (fun x => x.2.2) this).symm]
  · rename_i hm
    rw [h] at hm
    exact absurd hm (by simp)
theorem scanHs_walk (u : List Char) (hu : ∀ c ∈ u, lineTerm c = false)
    (X : List Char) : scanHs (u ++ X) false = scanHs X false := by
  induction u with
  | nil => rfl
  | cons c t ih =>
    rw [List.cons_append, scanHs_cons_false, hu c (List.mem_cons_self _ _)]
    exact ih (fun c2 hc2 => hu c2 (List.mem_cons_of_mem _ hc2))

theorem lineTerm_newline : lineTerm '\n' = true := rfl

theorem intercalate_cons_seam (l : List Char) (rest : List (List Char)) :
    List.intercalate ['\n'] (l :: rest) = l ++ seamOf rest := by
  unfold seamOf
  rcases rest with _ | ⟨r0, rs⟩
  · rw [if_pos rfl]
    simp [List.intercalate, List.intersperse]
  · rw [if_neg (by simp)]
    simp [List.intercalate, List.intersperse]

theorem parse_head_hash (l : List Char) (lvl : Nat) (text : List Char)
    (hp : lineHeadingParse l = some (lvl, text)) : ∃ t, l = '#' :: t := by
  rcases l with _ | ⟨c, t⟩
  · exact absurd hp (by simp [lineHeadingParse])
  · by_cases hc : c = '#'
    · exact ⟨t, by rw [hc]⟩
    · exfalso
      simp only [lineHeadingParse] at hp
      rw [List.takeWhile_cons_of_neg (by simpa using hc)] at hp
      simp at hp

theorem seamOf_shape (rest : List (List Char)) :
    seamOf rest = [] ∨ ∃ r, seamOf rest = '\n' :: r := by
  unfold seamOf
  rcases rest with _ | ⟨r0, rs⟩
  · exact Or.inl (by rw [if_pos rfl])
  · exact Or.inr ⟨_, by rw [if_neg (by simp)]⟩

theorem scanHs_lines : ∀ (lines : List (List Char)), properLines lines →
    scanHs (List.intercalate ['\n'] lines) true = specScan lines := by
  intro lines
  induction lines with
  | nil =>
    intro _
    rw [show List.intercalate ['\n'] ([] : List (List Char)) = [] by
      simp [List.intercalate, List.intersperse]]
    rw [scanHs_nil]
    rfl
  | cons l rest ih =>
    intro hp
    have hrest : properLines rest := fun x hx => hp x (List.mem_cons_of_mem _ hx)
    have hl := hp l (List.mem_cons_self _ _)
    have hseamF : scanHs (seamOf rest) false = specScan rest := by
      rcases hr : rest with _ | ⟨r0, rs⟩
      · rw [show seamOf [] = [] from by unfold seamOf; rw [if_pos rfl]]
        rw [scanHs_nil]
        rfl
      · rw [show seamOf (r0 :: rs) = '\n' :: List.intercalate ['\n'] (r0 :: rs)
          from by unfold seamOf; rw [if_neg (by simp)]]
        rw [scanHs_cons_false, lineTerm_newline, ← hr]
        exact ih hrest
    have hseamT : scanHs (seamOf rest) true = specScan rest := by
      rcases hr : rest with _ | ⟨r0, rs⟩
      · rw [show seamOf [] = [] from by unfold seamOf; rw [if_pos rfl]]
        rw [scanHs_nil]
        rfl
      · rw [show seamOf (r0 :: rs) = '\n' :: List.intercalate ['\n'] (r0 :: rs)
          from by unfold seamOf; rw [if_neg (by simp)]]
        rw [scanHs_cons_true_none _ _ (hmatchAt_not_hash _ (by decide) _)]
        rw [lineTerm_newline, ← hr]
        exact ih hrest
    rw [intercalate_cons_seam]
    rcases hparse : lineHeadingParse l with _ | ⟨lvl, text⟩
    · -- non-heading line
      rw [show specScan (l :: rest) = specScan rest from by
        simp only [specScan]; rw [hparse]]
      rcases hl0 : l with _ | ⟨c, t⟩
      · rw [List.nil_append]
        exact hseamT
      · have hc : ¬(c = '#') := by
          intro hc
          have hhead : l.head? = some '#' := by rw [hl0, hc]; rfl
          have := (hl.2 hhead)
          rw [hparse] at this
          exact absurd this (by simp)
        rw [List.cons_append]
        rw [scanHs_cons_true_none _ _ (hmatchAt_not_hash _ hc _)]
        have hcl : lineTerm c = false := by
          have hmem : c ∈ l := by rw [hl0]; exact List.mem_cons_self _ _
          simp only [lineTerm, Bool.or_eq_false_iff]
          constructor
          · rw [decide_eq_false_iff_not]
            intro hcon
            rw [hcon] at hmem
            exact (hl.1).1 hmem
          · rw [decide_eq_false_iff_not]
            intro hcon
            rw [hcon] at hmem
            exact (hl.1).2 hmem
        rw [hcl]
        rw [scanHs_walk t (fun c2 hc2 => by
          have hmem : c2 ∈ l := by rw [hl0]; exact List.mem_cons_of_mem _ hc2
          simp only [lineTerm, Bool.or_eq_false_iff]
          constructor
          · rw [decide_eq_false_iff_not]
            intro hcon
            rw [hcon] at hmem
            exact (hl.1).1 hmem
          · rw [decide_eq_false_iff_not]
            intro hcon
            rw [hcon] at hmem
            exact (hl.1).2 hmem)]
        exact hseamF
    · -- heading line
      obtain ⟨t, hlt⟩ := parse_head_hash l lvl text hparse
      have hm : hmatchAt (l ++ seamOf rest) = some (lvl, text, seamOf rest) :=
        hmatchAt_of_parse l lvl text hparse (hl.1).1 (hl.1).2 _ (seamOf_shape rest)
      rw [show specScan (l :: rest) = (lvl, text, seamOf rest) :: specScan rest
        from by simp only [specScan]; rw [hparse]]
      rw [hlt]
      rw [hlt, List.cons_append] at hm
      rw [List.cons_append]
      rw [scanHs_cons_true_some _ _ _ _ _ hm]
      rw [hseamF]
theorem firstHIdx_walk (u : List Char) (hu : ∀ c ∈ u, lineTerm c = false)
    (X : List Char) : ∀ pos, firstHIdx (u ++ X) false pos =
      firstHIdx X false (pos + u.length) := by
  induction u with
  | nil => intro pos; rfl
  | cons c t ih =>
    intro pos
    rw [List.cons_append]
    rw [show firstHIdx (c :: (t ++ X)) false pos =
      firstHIdx (t ++ X) (lineTerm c) (pos + 1) from by
        simp only [firstHIdx, Bool.false_and]
        rw [if_neg (by simp)]]
    rw [hu c (List.mem_cons_self _ _)]
    rw [ih (fun c2 hc2 => hu c2 (List.mem_cons_of_mem _ hc2)) (pos + 1)]
    have : pos + 1 + t.length = pos + (c :: t).length := by
      simp only [List.length_cons]
      omega
    rw [this]

theorem firstHIdx_lines : ∀ (lines : List (List Char)), properLines lines →
    ∀ pos, firstHIdx (List.intercalate ['\n'] lines) true pos =
      (firstHeadingOffset lines).map (fun off => pos + off) := by
  intro lines
  induction lines with
  | nil =>
    intro _ pos
    rw [show List.intercalate ['\n'] ([] : List (List Char)) = [] by
      simp [List.intercalate, List.intersperse]]
    rfl
  | cons l rest ih =>
    intro hp pos
    have hrest : properLines rest := fun x hx => hp x (List.mem_cons_of_mem _ hx)
    have hl := hp l (List.mem_cons_self _ _)
    have hseamIdx : ∀ (b : Bool) (p : Nat), firstHIdx (seamOf rest) b p =
        (firstHeadingOffset rest).map (fun off => p + 1 + off) := by
      intro b p
      rcases hr : rest with _ | ⟨r0, rs⟩
      · rw [show seamOf [] = [] from by unfold seamOf; rw [if_pos rfl]]
        rfl
      · rw [show seamOf (r0 :: rs) = '\n' :: List.intercalate ['\n'] (r0 :: rs)
          from by unfold seamOf; rw [if_neg (by simp)]]
        rw [show firstHIdx ('\n' :: List.intercalate ['\n'] (r0 :: rs)) b p =
          firstHIdx (List.intercalate ['\n'] (r0 :: rs)) (lineTerm '\n') (p + 1)
          from by
            simp only [firstHIdx,
              hmatchAt_not_hash '\n' (by decide) (List.intercalate ['\n'] (r0 :: rs))]
            rw [if_neg (by simp)]]
        rw [lineTerm_newline, ← hr]
        exact ih hrest (p + 1)
    rw [intercalate_cons_seam]
    rcases hparse : lineHeadingParse l with _ | ⟨lvl, text⟩
    · -- non-heading line
      have hoffC : firstHeadingOffset (l :: rest) =
          (firstHeadingOffset rest).map (fun off => l.length + 1 + off) := by
        simp only [firstHeadingOffset]
        rw [hparse]
        simp
      rw [hoffC, Option.map_map]
      rcases hl0 : l with _ | ⟨c, t⟩
      · rw [List.nil_append, hseamIdx true pos]
        rcases hoff : firstHeadingOffset rest with _ | off
        · rfl
        · simp only [Option.map_some']
          rw [Option.some.injEq]
          simp only [Function.comp, hl0, List.length_nil]
          omega
      · have hc : ¬(c = '#') := by
          intro hc2
          have hhead : l.head? = some '#' := by rw [hl0, hc2]; rfl
          have := (hl.2 hhead)
          rw [hparse] at this
          exact absurd this (by simp)
        have hnt : ∀ c2 ∈ l, lineTerm c2 = false := by
          intro c2 hmem
          simp only [lineTerm, Bool.or_eq_false_iff]
          constructor
          · rw [decide_eq_false_iff_not]
            intro hcon
            rw [hcon] at hmem
            exact (hl.1).1 hmem
          · rw [decide_eq_false_iff_not]
            intro hcon
            rw [hcon] at hmem
            exact (hl.1).2 hmem
        rw [List.cons_append]
        rw [show firstHIdx (c :: (t ++ seamOf rest)) true pos =
          firstHIdx (t ++ seamOf rest) (lineTerm c) (pos + 1) from by
            simp only [firstHIdx,
              hmatchAt_not_hash c hc (t ++ seamOf rest)]
            rw [if_neg (by simp)]]
        rw [hnt c (by rw [hl0]; exact List.mem_cons_self _ _)]
        rw [firstHIdx_walk t (fun c2 hc2 => hnt c2
          (by rw [hl0]; exact List.mem_cons_of_mem _ hc2)) _ (pos + 1)]
        rw [hseamIdx false (pos + 1 + t.length)]
        rcases hoff : firstHeadingOffset rest with _ | off
        · rfl
        · simp only [Option.map_some']
          rw [Option.some.injEq]
          simp only [Function.comp, hl0, List.length_cons]
          omega
    · -- heading line
      obtain ⟨t, hlt⟩ := parse_head_hash l lvl text hparse
      have hm : hmatchAt (l ++ seamOf rest) = some (lvl, text, seamOf rest) :=
        hmatchAt_of_parse l lvl text hparse (hl.1).1 (hl.1).2 _ (seamOf_shape rest)
      have hoffC : firstHeadingOffset (l :: rest) = some 0 := by
        simp only [firstHeadingOffset]
        rw [hparse]
        simp
      rw [hoffC]
      rw [hlt, List.cons_append] at hm
      rw [hlt, List.cons_append]
      rw [show firstHIdx ('#' :: (t ++ seamOf rest)) true pos = some pos from by
        simp only [firstHIdx, hm]
        rw [if_pos (by simp)]]
      simp
theorem takeWhile_of_offset_none : ∀ (lines : List (List Char)),
    firstHeadingOffset lines = none →
    lines.takeWhile (fun l => (lineHeadingParse l).isNone) = lines := by
  intro lines
  induction lines with
  | nil => intro _; rfl
  | cons l rest ih =>
    intro h
    simp only [firstHeadingOffset] at h
    by_cases hs : (lineHeadingParse l).isSome = true
    · rw [if_pos hs] at h
      exact absurd h (by simp)
    · rw [if_neg hs] at h
      have hni : (lineHeadingParse l).isNone = true := by
        rw [Option.isNone_iff_eq_none]
        exact Option.not_isSome_iff_eq_none.mp hs
      rw [List.takeWhile_cons, if_pos hni]
      rw [ih (Option.map_eq_none'.mp h)]

theorem intercalate_take_offset : ∀ (lines : List (List Char)) (off : Nat),
    firstHeadingOffset lines = some off →
    (List.intercalate ['\n'] lines).take off =
      List.intercalate ['\n']
        (lines.takeWhile (fun l => (lineHeadingParse l).isNone)) ++
      (if lines.takeWhile (fun l => (lineHeadingParse l).isNone) = []
       then [] else ['\n']) := by
  intro lines
  induction lines with
  | nil =>
    intro off h
    exact absurd h (by simp [firstHeadingOffset])
  | cons l rest ih =>
    intro off h
    simp only [firstHeadingOffset] at h
    by_cases hs : (lineHeadingParse l).isSome = true
    · rw [if_pos hs] at h
      have hoff : off = 0 := (Option.some.inj h).symm
      have htw : (l :: rest).takeWhile (fun l2 => (lineHeadingParse l2).isNone)
          = [] := by
        rw [List.takeWhile_cons, if_neg]
        simp only [Option.isNone_iff_eq_none]
        intro hcon
        rw [hcon] at hs
        simp at hs
      rw [hoff, htw]
      simp [List.intercalate, List.intersperse]
    · rw [if_neg hs] at h
      obtain ⟨off2, hoff2, hoffeq⟩ := Option.map_eq_some'.mp h
      have hni : (lineHeadingParse l).isNone = true := by
        rw [Option.isNone_iff_eq_none]
        exact Option.not_isSome_iff_eq_none.mp hs
      have htw : (l :: rest).takeWhile (fun l2 => (lineHeadingParse l2).isNone)
          = l :: rest.takeWhile (fun l2 => (lineHeadingParse l2).isNone) := by
        rw [List.takeWhile_cons, if_pos hni]
      rw [htw]
      rw [intercalate_cons_seam, intercalate_cons_seam]
      have hrne : rest ≠ [] := by
        intro hcon
        rw [hcon] at hoff2
        exact absurd hoff2 (by simp [firstHeadingOffset])
      rw [show seamOf rest = '\n' :: List.intercalate ['\n'] rest from by
        unfold seamOf; rw [if_neg hrne]]
      rw [← hoffeq]
      have harr : l.length + 1 + off2 = l.length + (off2 + 1) := by omega
      rw [harr, List.take_append, List.take_succ_cons]
      rw [ih off2 hoff2]
      rw [if_neg (List.cons_ne_nil _ _)]
      by_cases htwr : rest.takeWhile (fun l2 => (lineHeadingParse l2).isNone) = []
      · rw [htwr, if_pos rfl]
        rw [show seamOf ([] : List (List Char)) = [] from by
          unfold seamOf; rw [if_pos rfl]]
        simp [List.intercalate, List.intersperse]
      · rw [if_neg htwr]
        rw [show seamOf (rest.takeWhile (fun l2 => (lineHeadingParse l2).isNone))
            = '\n' :: List.intercalate ['\n']
              (rest.takeWhile (fun l2 => (lineHeadingParse l2).isNone)) from by
          unfold seamOf; rw [if_neg htwr]]
        simp
theorem bodyOf_seam (rest : List (List Char)) (hrest : properLines rest) :
    trimL (bodyOf (seamOf rest)) =
      trimL (List.intercalate ['\n']
        (rest.takeWhile (fun l => (lineHeadingParse l).isNone))) := by
  rcases hr : rest with _ | ⟨r0, rs⟩
  · rw [show seamOf [] = [] from by unfold seamOf; rw [if_pos rfl]]
    rfl
  · rw [show seamOf (r0 :: rs) = '\n' :: List.intercalate ['\n'] (r0 :: rs)
      from by unfold seamOf; rw [if_neg (by simp)]]
    unfold bodyOf
    rw [show firstHIdx ('\n' :: List.intercalate ['\n'] (r0 :: rs)) true 0 =
      firstHIdx (List.intercalate ['\n'] (r0 :: rs)) true 1 from by
        simp only [firstHIdx,
          hmatchAt_not_hash '\n' (by decide) (List.intercalate ['\n'] (r0 :: rs))]
        rw [if_neg (by simp), lineTerm_newline]]
    rw [firstHIdx_lines (r0 :: rs) (hr ▸ hrest) 1]
    rcases hoff : firstHeadingOffset (r0 :: rs) with _ | off
    · rw [show Option.map (fun off => 1 + off) (none : Option Nat) = none
        from rfl]
      rw [takeWhile_of_offset_none _ hoff]
      dsimp only
      exact trimL_cons_ws '\n' (by decide) _
    · rw [show Option.map (fun off => 1 + off) (some off) = some (1 + off)
        from rfl]
      dsimp only
      rw [show (1 + off) = off + 1 from by omega, List.take_succ_cons]
      rw [intercalate_take_offset _ off hoff]
      rw [trimL_cons_ws '\n' (by decide)]
      by_cases htwr : (r0 :: rs).takeWhile
          (fun l => (lineHeadingParse l).isNone) = []
      · rw [htwr, if_pos rfl]
        rw [List.append_nil]
      · rw [if_neg htwr]
        exact trimL_append_ws '\n' (by decide) _
theorem specAssemble_nil (fp : String) : specAssemble fp [] = [] := by
  rw [specAssemble]

theorem specAssemble_cons_none (fp : String) (l : List Char)
    (rest : List (List Char)) (hparse : lineHeadingParse l = none) :
    specAssemble fp (l :: rest) = specAssemble fp rest := by
  rw [specAssemble]
  rw [hparse]

theorem specAssemble_cons_some (fp : String) (l : List Char)
    (rest : List (List Char)) (lvl : Nat) (text : List Char)
    (hparse : lineHeadingParse l = some (lvl, text)) :
    specAssemble fp (l :: rest) =
      { path := fp
        heading := String.mk (trimL text)
        level := lvl
        content := String.mk (trimL (List.intercalate ['\n']
          (rest.takeWhile (fun l₂ => (lineHeadingParse l₂).isNone)))) } ::
      specAssemble fp (rest.dropWhile (fun l₂ => (lineHeadingParse l₂).isNone)) := by
  rw [specAssemble]
  rw [hparse]

theorem specAssemble_dropWhile (fp : String) : ∀ (rest : List (List Char)),
    specAssemble fp rest =
      specAssemble fp (rest.dropWhile (fun l => (lineHeadingParse l).isNone)) := by
  intro rest
  induction rest with
  | nil => rfl
  | cons l rest2 ih =>
    rcases hparse : lineHeadingParse l with _ | ⟨lvl, text⟩
    · rw [specAssemble_cons_none fp l rest2 hparse]
      rw [List.dropWhile_cons, if_pos (by rw [hparse]; rfl)]
      exact ih
    · rw [List.dropWhile_cons, if_neg (by rw [hparse]; simp)]

theorem specScan_map (fp : String) : ∀ (lines : List (List Char)),
    properLines lines →
    (specScan lines).map (fun e =>
      ({ path := fp
         heading := String.mk (trimL e.2.1)
         level := e.1
         content := String.mk (trimL (bodyOf e.2.2)) } : HeadingInfo)) =
      specAssemble fp lines := by
  intro lines
  induction lines with
  | nil =>
    intro _
    rw [specAssemble_nil]
    rfl
  | cons l rest ih =>
    intro hp
    have hrest : properLines rest := fun x hx => hp x (List.mem_cons_of_mem _ hx)
    rcases hparse : lineHeadingParse l with _ | ⟨lvl, text⟩
    · rw [show specScan (l :: rest) = specScan rest from by
        simp only [specScan]; rw [hparse]]
      rw [specAssemble_cons_none fp l rest hparse]
      exact ih hrest
    · rw [show specScan (l :: rest) = (lvl, text, seamOf rest) :: specScan rest
        from by simp only [specScan]; rw [hparse]]
      rw [specAssemble_cons_some fp l rest lvl text hparse]
      rw [List.map_cons]
      congr 1
      · dsimp only
        rw [bodyOf_seam rest hrest]
      · rw [ih hrest]
        exact specAssemble_dropWhile fp rest
/-- C8 (counterexample): a line that begins with a marker character but
has no whitespace separator after the markers yields NO entry: the claim's
"one entry per line beginning with 1-6 marker characters" overcounts, since
the extraction pattern also requires at least one whitespace character and
nonempty heading text after the markers. -/
theorem extractHeadings_hash_no_space :
    extractHeadings "#foo" "f" = [] := by
  unfold extractHeadings
  rw [show ("#foo" : String).data = '#' :: 'f' :: 'o' :: 'o' :: [] from rfl]
  rw [scanHs_cons_true_none _ _ (by decide),
    show lineTerm '#' = false from rfl]
  rw [scanHs_cons_false, show lineTerm 'f' = false from rfl]
  rw [scanHs_cons_false, show lineTerm 'o' = false from rfl]
  rw [scanHs_cons_false, show lineTerm 'o' = false from rfl]
  rw [scanHs_nil]
  rfl

/-- C8 (amended): heading extraction on a text assembled from terminator-free
lines, in which every line starting with a marker character is a proper
heading line (1-6 markers, then at least one whitespace character, then
nonempty text), yields exactly one entry per heading line, whose depth is
the marker count, whose heading is the trimmed text after the markers, and
whose body is the trimmed text of the lines from immediately after the
heading line to the start of the next heading line or end of file. -/
theorem extractHeadings_lines (fp : String) (lines : List (List Char))
    (hp : properLines lines) :
    extractHeadings (String.mk (List.intercalate ['\n'] lines)) fp =
      specAssemble fp lines := by
  unfold extractHeadings
  rw [show (String.mk (List.intercalate ['\n'] lines)).data =
    List.intercalate ['\n'] lines from rfl]
  rw [scanHs_lines lines hp]
  exact specScan_map fp lines hp

/-- C8 (witness): on the spec's example `"# A\nbody1\n## B\nbody2"` the
extraction yields exactly the two entries (heading `A`, depth 1, body
`body1`) and (heading `B`, depth 2, body `body2`). -/
theorem extractHeadings_lines_witness :
    properLines [['#', ' ', 'A'], ['b', 'o', 'd', 'y', '1'],
      ['#', '#', ' ', 'B'], ['b', 'o', 'd', 'y', '2']] ∧
    extractHeadings "# A\nbody1\n## B\nbody2" "f" =
      [{ path := "f", heading := "A", level := 1, content := "body1" },
       { path := "f", heading := "B", level := 2, content := "body2" }] := by
  constructor
  · unfold properLines
    decide
  · have h := extractHeadings_lines "f"
      [['#', ' ', 'A'], ['b', 'o', 'd', 'y', '1'],
       ['#', '#', ' ', 'B'], ['b', 'o', 'd', 'y', '2']]
      (by unfold properLines; decide)
    rw [show ("# A\nbody1\n## B\nbody2" : String) =
      String.mk (List.intercalate ['\n']
        [['#', ' ', 'A'], ['b', 'o', 'd', 'y', '1'],
         ['#', '#', ' ', 'B'], ['b', 'o', 'd', 'y', '2']]) from rfl]
    rw [h]
    rw [specAssemble_cons_some "f" _ _ 1 ['A'] (by decide)]
    rw [show ([['b', 'o', 'd', 'y', '1'], ['#', '#', ' ', 'B'],
      ['b', 'o', 'd', 'y', '2']].dropWhile
        (fun l₂ => (lineHeadingParse l₂).isNone)) =
      [['#', '#', ' ', 'B'], ['b', 'o', 'd', 'y', '2']] from by decide]
    rw [specAssemble_cons_some "f" _ _ 2 ['B'] (by decide)]
    rw [show ([['b', 'o', 'd', 'y', '2']].dropWhile
        (fun l₂ => (lineHeadingParse l₂).isNone)) = [] from by decide]
    rw [specAssemble_nil]
    rfl

end AmplifyDocs
